import Mathlib

/-!
Verification of the task scheduler in `TaskScheduler.py` (class `TaskScheduler`).

Shallow embedding conventions:
- Task ids are natural numbers drawn from a counter (`next_id`); the source uses
  uuid4 hex strings, which are unique and never falsy, so a fresh counter is a
  faithful model (freshness is carried as an explicit invariant where needed).
- Python objects are modelled by a heap keyed by task id (`heap`); the dict
  `self.tasks` is modelled by the list of live ids (`live`), because timer
  closures keep referencing a task object after `self.tasks.pop` removed it.
- A work item is a `WorkItem`; its execution behaviour is a parameter
  `run : WorkItem -> List Nat -> Outcome` (normal return of a value, Python
  `None` included among the modelled values, or a raised exception).
  `WorkItem.self` models `getattr(func, "__self__", None)`.
- `*args` and `**kwargs` are modelled together as one argument list.
- Qt timers are modelled by the id sets `debounce_timers` / `periodic_timers`
  plus explicit firing transitions (`debounceFire`, `periodicTick`); wall-clock
  durations are not modelled.
- Completion events (`self.emitter.finished.emit`) are collected in the order
  the dispatched execution would eventually emit them; an operation returns the
  events its dispatched work will produce.
- Statements raising a Python exception that escapes the call are modelled by
  `Except.error`; `executor.submit` after `ThreadPoolExecutor.shutdown` raises
  (`poolShutdown`), `_schedule_coro` without a loop thread raises
  (`notConfigured`), and `submit_coro_threadsafe` before the loop started
  raises (`loopNotStarted`).
-/

namespace DynamicTasks

/-- Outcome of running a work item: a normal return or a raised exception. -/
inductive Outcome where
  | ok (v : Nat)
  | err (e : Nat)
deriving DecidableEq, Repr

/-- A work item: `code` identifies the callable payload, `self` models
`getattr(func, "__self__", None)`. -/
structure WorkItem where
  code : Nat
  self : Option Nat := none
deriving DecidableEq, Repr

abbrev TaskId := Nat

/-- Semantics of executing a work item on its bound arguments. -/
abbrev Run := WorkItem → List Nat → Outcome

/-- Exceptions that can escape a scheduler-internal call. -/
inductive Exc where
  | user (e : Nat)
  | notConfigured
  | loopNotStarted
  | poolShutdown
deriving DecidableEq, Repr

/-- The `ScheduledTask` dataclass. -/
structure ScheduledTask where
  id : TaskId
  func : WorkItem
  args : List Nat
  is_coroutine : Bool
  owner : Option Nat := none
  coalesce_key : Option String := none
  debounce_ms : Option Int := none
  periodic_ms : Option Int := none
  last_future : Option Nat := none
  cancelled : Bool := false
  scheduled_time : Nat := 0
  priority : Int := 0
deriving DecidableEq, Repr

/-- One `(task_id, owner, result, exc)` payload of `TaskResultEmitter.finished`. -/
structure CompletionEvent where
  taskId : TaskId
  owner : Option Nat
  result : Option Nat
  error : Option Exc
deriving DecidableEq, Repr

/-- The mutable state of a `TaskScheduler` instance. `heap` is the object store
(all task objects ever created), `live` the key set of `self.tasks`,
`executor_shutdown` the shutdown flag of the `ThreadPoolExecutor`, `has_loop`
whether `self.loop_thread` is not `None`, `loop_started` the `_started` event
of the loop thread, `next_id` / `next_handle` fresh-name counters for task ids
and future handles. -/
structure SchedulerState where
  heap : List (TaskId × ScheduledTask)
  live : List TaskId
  coalesce_map : List (String × TaskId)
  debounce_timers : List TaskId
  periodic_timers : List TaskId
  executor_shutdown : Bool
  has_loop : Bool
  loop_started : Bool
  next_id : TaskId
  next_handle : Nat
deriving DecidableEq, Repr

/-- Association-list lookup (first match). -/
def alookup {α β : Type} [DecidableEq α] (k : α) : List (α × β) → Option β
  | [] => none
  | p :: t => if p.1 = k then some p.2 else alookup k t

/-- Association-list update (replace the first binding, else append). -/
def aset {α β : Type} [DecidableEq α] (k : α) (v : β) : List (α × β) → List (α × β)
  | [] => [(k, v)]
  | p :: t => if p.1 = k then (k, v) :: t else p :: aset k v t

/-- Association-list removal of the first binding for a key (`dict.pop`). -/
def aremove {α β : Type} [DecidableEq α] (k : α) : List (α × β) → List (α × β)
  | [] => []
  | p :: t => if p.1 = k then t else p :: aremove k t

/-- Python truthiness of an `Optional[str]` key: `None` and `""` are falsy. -/
def truthyKey : Option String → Bool
  | none => false
  | some k => !(k == "")

/-- Python truthiness of an `Optional[int]` interval: `None` and `0` are falsy. -/
def truthyInt : Option Int → Bool
  | none => false
  | some i => !(i == 0)

/-- `self.tasks.get(task_id)`: the dict holds the object iff the id is live. -/
def tasksGet (s : SchedulerState) (tid : TaskId) : Option ScheduledTask :=
  if tid ∈ s.live then alookup tid s.heap else none

/-- Builds the single completion event a finished execution emits. -/
def mkDoneEvent (tid : TaskId) (ow : Option Nat) : Outcome → CompletionEvent
  | .ok v => { taskId := tid, owner := ow, result := some v, error := none }
  | .err e => { taskId := tid, owner := ow, result := none, error := some (.user e) }

/-- `TaskScheduler._sync_executor_wrapper`: runs the work item and emits exactly
one completion event tagged with `sched.owner`. -/
def syncExecutorWrapper (run : Run) (sched : ScheduledTask) : CompletionEvent :=
  mkDoneEvent sched.id sched.owner (run sched.func sched.args)

/-- `TaskScheduler._schedule_sync` together with the eventual worker execution:
`executor.submit` (raising after pool shutdown), recording the future on the
task, and the one event `_sync_executor_wrapper` will emit. -/
def scheduleSync (run : Run) (s : SchedulerState) (tid : TaskId)
    (sched : ScheduledTask) : Except Exc (SchedulerState × List CompletionEvent) :=
  if s.executor_shutdown then .error .poolShutdown
  else
    let sched' := { sched with last_future := some s.next_handle }
    .ok ({ s with heap := aset tid sched' s.heap,
                  next_handle := s.next_handle + 1 },
         [syncExecutorWrapper run sched'])

/-- `TaskScheduler._schedule_coro` together with the eventual done callback:
raises when no loop thread is configured, raises from
`submit_coro_threadsafe` when the loop has not started, otherwise records the
future and the done callback emits exactly one event tagged `sched.owner`. -/
def scheduleCoro (run : Run) (s : SchedulerState) (tid : TaskId)
    (sched : ScheduledTask) : Except Exc (SchedulerState × List CompletionEvent) :=
  if !s.has_loop then .error .notConfigured
  else if !s.loop_started then .error .loopNotStarted
  else
    let sched' := { sched with last_future := some s.next_handle }
    .ok ({ s with heap := aset tid sched' s.heap,
                  next_handle := s.next_handle + 1 },
         [mkDoneEvent sched.id sched.owner (run sched.func sched.args)])

/-- The superseded test of `TaskScheduler._dispatch`: the task has a truthy
coalesce key whose current map holder is not this task. -/
def supersededB (s : SchedulerState) (sched : ScheduledTask) : Bool :=
  match sched.coalesce_key with
  | none => false
  | some k => if k == "" then false else alookup k s.coalesce_map != some sched.id

/-- `TaskScheduler._dispatch` for the task object stored at `tid`. A failure of
`_schedule_coro` is caught and converted into one error event whose owner slot
is `getattr(sched.func, "__self__", None)`; a failure of `_schedule_sync`
propagates to the caller. -/
def dispatchTask (run : Run) (s : SchedulerState) (tid : TaskId) :
    Except Exc (SchedulerState × List CompletionEvent) :=
  match alookup tid s.heap with
  | none => .ok (s, [])
  | some sched =>
    if sched.cancelled then .ok (s, [])
    else if supersededB s sched then
      .ok ({ s with heap := aset tid { sched with cancelled := true } s.heap }, [])
    else if sched.is_coroutine then
      match scheduleCoro run s tid sched with
      | .ok r => .ok r
      | .error e =>
        .ok (s, [{ taskId := sched.id, owner := sched.func.self,
                   result := none, error := some e }])
    else
      scheduleSync run s tid sched

/-- The fresh `ScheduledTask` record a `scheduleOnce` call builds. -/
def mkOnceTask (s : SchedulerState) (func : WorkItem) (args : List Nat)
    (is_coroutine : Bool) (owner : Option Nat) (coalesce_key : Option String)
    (debounce_ms : Option Int) (priority : Int) (now : Nat) : ScheduledTask :=
  { id := s.next_id, func := func, args := args, is_coroutine := is_coroutine,
    owner := owner, coalesce_key := coalesce_key, debounce_ms := debounce_ms,
    priority := priority, scheduled_time := now }

/-- The coalesce bookkeeping of `scheduleOnce`, given the state `s1` right
after the registry insert of the new task: returns the heap (the previous
holder gets its cancelled flag set when it is live, not cancelled and has no
execution handle yet) and the coalesce map (the new task takes over the key).
Touches nothing else. -/
def coalesceStep (s1 : SchedulerState) (task_id : TaskId)
    (coalesce_key : Option String) :
    List (TaskId × ScheduledTask) × List (String × TaskId) :=
  match coalesce_key with
  | none => (s1.heap, s1.coalesce_map)
  | some k =>
    if k == "" then (s1.heap, s1.coalesce_map)
    else
      let heap' :=
        match alookup k s1.coalesce_map with
        | none => s1.heap
        | some prev_id =>
          match tasksGet s1 prev_id with
          | none => s1.heap
          | some prev =>
            if !prev.cancelled && prev.last_future == none then
              aset prev_id { prev with cancelled := true } s1.heap
            else s1.heap
      (heap', aset k task_id s1.coalesce_map)

/-- The registry insert `self.tasks[task_id] = sched` for a fresh task. -/
def regInsert (s : SchedulerState) (sched : ScheduledTask) : SchedulerState :=
  { s with next_id := s.next_id + 1,
           heap := s.heap ++ [(s.next_id, sched)],
           live := s.live ++ [s.next_id] }

/-- The registration step of `scheduleOnce` under the lock, before the debounce
or immediate-dispatch decision: allocate the id, insert the task in the
registry, and run the coalesce bookkeeping. -/
def registerOnce (s : SchedulerState) (func : WorkItem) (args : List Nat)
    (is_coroutine : Bool) (owner : Option Nat) (coalesce_key : Option String)
    (debounce_ms : Option Int) (priority : Int) (now : Nat) : SchedulerState :=
  let task_id := s.next_id
  let sched := mkOnceTask s func args is_coroutine owner coalesce_key
    debounce_ms priority now
  let s1 := regInsert s sched
  let hc := coalesceStep s1 task_id coalesce_key
  { s1 with heap := hc.1, coalesce_map := hc.2 }

/-- `TaskScheduler.scheduleOnce`: allocate and register the task, run the
coalesce bookkeeping, then either arm a fresh single-shot debounce timer or
dispatch immediately. -/
def scheduleOnce (run : Run) (s : SchedulerState) (func : WorkItem)
    (args : List Nat) (is_coroutine : Bool) (owner : Option Nat)
    (coalesce_key : Option String) (debounce_ms : Option Int) (priority : Int)
    (now : Nat) :
    Except Exc (SchedulerState × List CompletionEvent × TaskId) :=
  let task_id := s.next_id
  let s2 := registerOnce s func args is_coroutine owner coalesce_key
    debounce_ms priority now
  if truthyInt debounce_ms then
    .ok ({ s2 with debounce_timers := s2.debounce_timers ++ [task_id] }, [], task_id)
  else
    match dispatchTask run s2 task_id with
    | .ok (s3, evs) => .ok (s3, evs, task_id)
    | .error e => .error e

/-- The fresh `ScheduledTask` record a `schedulePeriodic` call builds. -/
def mkPeriodicTask (s : SchedulerState) (func : WorkItem) (interval_ms : Int)
    (args : List Nat) (is_coroutine : Bool) (owner : Option Nat)
    (coalesce_key : Option String) (priority : Int) (now : Nat) :
    ScheduledTask :=
  { id := s.next_id, func := func, args := args, is_coroutine := is_coroutine,
    owner := owner, coalesce_key := coalesce_key,
    periodic_ms := some interval_ms, priority := priority,
    scheduled_time := now }

/-- `TaskScheduler.schedulePeriodic`: register the task, arm a repeating timer;
no coalesce-map write, no interval validation, no immediate dispatch. -/
def schedulePeriodic (s : SchedulerState) (func : WorkItem) (interval_ms : Int)
    (args : List Nat) (is_coroutine : Bool) (owner : Option Nat)
    (coalesce_key : Option String) (priority : Int) (now : Nat) :
    SchedulerState × TaskId :=
  let task_id := s.next_id
  let sched := mkPeriodicTask s func interval_ms args is_coroutine owner
    coalesce_key priority now
  ({ s with next_id := s.next_id + 1,
            heap := s.heap ++ [(task_id, sched)],
            live := s.live ++ [task_id],
            periodic_timers := s.periodic_timers ++ [task_id] }, task_id)

/-- The `_on_debounce` closure firing for `tid`: pop the timer entry, then
dispatch the captured task object. -/
def debounceFire (run : Run) (s : SchedulerState) (tid : TaskId) :
    Except Exc (SchedulerState × List CompletionEvent) :=
  dispatchTask run { s with debounce_timers := s.debounce_timers.filter (· ≠ tid) } tid

/-- The `_on_tick` closure of a periodic timer: dispatch unconditionally. -/
def periodicTick (run : Run) (s : SchedulerState) (tid : TaskId) :
    Except Exc (SchedulerState × List CompletionEvent) :=
  dispatchTask run s tid

/-- `TaskScheduler.cancel`: no-op on an unknown id; otherwise set the cancelled
flag, stop and drop both timers, best-effort cancel the future (no registry
effect, exceptions swallowed), detach the coalesce mapping if still owned,
remove the registry entry. Never raises. -/
def cancel (s : SchedulerState) (tid : TaskId) : SchedulerState :=
  match tasksGet s tid with
  | none => s
  | some sched =>
    { s with
      heap := aset tid { sched with cancelled := true } s.heap,
      periodic_timers := s.periodic_timers.filter (· ≠ tid),
      debounce_timers := s.debounce_timers.filter (· ≠ tid),
      coalesce_map :=
        match sched.coalesce_key with
        | none => s.coalesce_map
        | some k =>
          if alookup k s.coalesce_map = some tid
          then aremove k s.coalesce_map
          else s.coalesce_map,
      live := s.live.filter (· ≠ tid) }

/-- `TaskScheduler.shutdown`: stop and clear all timers, cancel every
outstanding task, shut the executor down, stop and drop the loop thread. -/
def shutdown (s : SchedulerState) (_wait : Bool) : SchedulerState :=
  let s1 := { s with periodic_timers := [], debounce_timers := [] }
  let s2 := s1.live.foldl cancel s1
  { s2 with executor_shutdown := true, has_loop := false }

/-- `TaskScheduler.__init__`: fresh maps, live executor, loop thread present
and started when `use_async_loop` is set. -/
def initState (use_async_loop : Bool) : SchedulerState :=
  { heap := [], live := [], coalesce_map := [], debounce_timers := [],
    periodic_timers := [], executor_shutdown := false,
    has_loop := use_async_loop, loop_started := use_async_loop,
    next_id := 0, next_handle := 0 }

/-- A concrete work-item semantics used by witnesses. -/
def runW : Run := fun w args =>
  if w.code % 2 = 0 then .ok (w.code + args.length) else .err w.code

/-- Freshness of the id counter over the object heap. -/
def FreshInv (s : SchedulerState) : Prop := ∀ p ∈ s.heap, p.1 < s.next_id

/-- Freshness of the id counter over the coalesce map values. -/
def MapBelow (s : SchedulerState) : Prop := ∀ p ∈ s.coalesce_map, p.2 < s.next_id

/-- Every registered coalesce holder is a live, non-cancelled task whose own
key is the key it holds. -/
def HolderInv (s : SchedulerState) : Prop :=
  ∀ k tid, alookup k s.coalesce_map = some tid →
    tid ∈ s.live ∧
    ∃ t, alookup tid s.heap = some t ∧ t.cancelled = false ∧
      t.coalesce_key = some k ∧ k ≠ ""

theorem alookup_aset_self {α β : Type} [DecidableEq α] (k : α) (v : β)
    (l : List (α × β)) : alookup k (aset k v l) = some v := by
  induction l with
  | nil => simp [aset, alookup]
  | cons p t ih =>
    by_cases h : p.1 = k <;> simp [aset, alookup, h, ih]

theorem alookup_aset_ne {α β : Type} [DecidableEq α] {k k' : α} (h : k' ≠ k)
    (v : β) (l : List (α × β)) : alookup k' (aset k v l) = alookup k' l := by
  induction l with
  | nil => simp [aset, alookup, Ne.symm h]
  | cons p t ih =>
    by_cases hp : p.1 = k
    · subst hp
      simp only [aset, if_pos rfl, alookup, if_neg (Ne.symm h)]
    · simp only [aset, if_neg hp, alookup]
      by_cases hq : p.1 = k'
      · simp [hq]
      · simp [hq, ih]

theorem alookup_eq_none {α β : Type} [DecidableEq α] {k : α} {l : List (α × β)}
    (h : ∀ p ∈ l, p.1 ≠ k) : alookup k l = none := by
  induction l with
  | nil => rfl
  | cons p t ih =>
    simp only [alookup, if_neg (h p (List.mem_cons_self p t))]
    exact ih fun q hq => h q (List.mem_cons_of_mem p hq)

theorem alookup_append_of_none {α β : Type} [DecidableEq α] {k : α}
    {l₁ l₂ : List (α × β)} (h : alookup k l₁ = none) :
    alookup k (l₁ ++ l₂) = alookup k l₂ := by
  induction l₁ with
  | nil => rfl
  | cons p t ih =>
    simp only [alookup] at h
    by_cases hp : p.1 = k
    · simp [hp] at h
    · simp only [List.cons_append, alookup, if_neg hp] at h ⊢
      exact ih (by simpa [hp] using h)

theorem alookup_append_of_some {α β : Type} [DecidableEq α] {k : α} {v : β}
    {l₁ l₂ : List (α × β)} (h : alookup k l₁ = some v) :
    alookup k (l₁ ++ l₂) = some v := by
  induction l₁ with
  | nil => simp [alookup] at h
  | cons p t ih =>
    by_cases hp : p.1 = k
    · simp only [alookup, if_pos hp] at h
      simp only [List.cons_append, alookup, if_pos hp]
      exact h
    · simp only [alookup, if_neg hp] at h
      simp only [List.cons_append, alookup, if_neg hp]
      exact ih h

theorem mem_of_alookup {α β : Type} [DecidableEq α] {k : α} {v : β}
    {l : List (α × β)} (h : alookup k l = some v) : (k, v) ∈ l := by
  induction l with
  | nil => simp [alookup] at h
  | cons p t ih =>
    by_cases hp : p.1 = k
    · simp only [alookup, if_pos hp, Option.some.injEq] at h
      have hpv : p = (k, v) := by
        cases p
        simp_all
      exact hpv ▸ List.mem_cons_self p t
    · simp only [alookup, if_neg hp] at h
      exact List.mem_cons_of_mem p (ih h)

theorem mem_aset {α β : Type} [DecidableEq α] {k : α} {v : β}
    {l : List (α × β)} {p : α × β} (h : p ∈ aset k v l) :
    p = (k, v) ∨ p ∈ l := by
  induction l with
  | nil => simpa [aset] using h
  | cons q t ih =>
    by_cases hq : q.1 = k
    · simp only [aset, hq, if_true] at h
      rcases List.mem_cons.mp h with h | h
      · exact Or.inl h
      · exact Or.inr (List.mem_cons_of_mem q h)
    · simp only [aset, hq, if_false] at h
      rcases List.mem_cons.mp h with h | h
      · exact Or.inr (h ▸ List.mem_cons_self q t)
      · rcases ih h with h | h
        · exact Or.inl h
        · exact Or.inr (List.mem_cons_of_mem q h)

theorem alookup_fresh_none {s : SchedulerState} (h : FreshInv s) :
    alookup s.next_id s.heap = none :=
  alookup_eq_none fun p hp => Nat.ne_of_lt (h p hp)

theorem mkDoneEvent_owner (tid : TaskId) (ow : Option Nat) (oc : Outcome) :
    (mkDoneEvent tid ow oc).owner = ow := by
  cases oc <;> rfl

theorem mkDoneEvent_taskId (tid : TaskId) (ow : Option Nat) (oc : Outcome) :
    (mkDoneEvent tid ow oc).taskId = tid := by
  cases oc <;> rfl

theorem mkDoneEvent_exclusive (tid : TaskId) (ow : Option Nat) (oc : Outcome) :
    (mkDoneEvent tid ow oc).result.isSome = !(mkDoneEvent tid ow oc).error.isSome := by
  cases oc <;> rfl

/-- After `cancel`, the id is no longer in the registry dict. -/
theorem tasksGet_cancel (s : SchedulerState) (tid : TaskId) :
    tasksGet (cancel s tid) tid = none := by
  cases h : tasksGet s tid with
  | none => simp [cancel, h]
  | some sched =>
    simp only [cancel, h]
    simp [tasksGet]

/-- On an id absent from the registry dict, `cancel` changes nothing. -/
theorem cancel_of_none {s : SchedulerState} {tid : TaskId}
    (h : tasksGet s tid = none) : cancel s tid = s := by
  simp [cancel, h]

/-- C5: `cancel(taskId)` is idempotent and total: a second `cancel` on the same
id leaves the state exactly as after the first, and a `cancel` on an unknown or
already-removed id leaves the whole scheduler state unchanged. Totality of the
Lean function models that `cancel` never raises (the one fallible statement,
`fut.cancel()`, is wrapped in try/except in the source). -/
theorem cancel_idempotent (s : SchedulerState) (tid : TaskId) :
    cancel (cancel s tid) tid = cancel s tid ∧
    (tasksGet s tid = none → cancel s tid = s) :=
  ⟨cancel_of_none (tasksGet_cancel s tid), fun h => cancel_of_none h⟩

/-- A sample task object used by witnesses: coroutine work item whose bound
receiver is widget 1, owned by token 7. -/
def sampleTask : ScheduledTask :=
  { id := 0, func := { code := 3, self := some 1 }, args := [4],
    is_coroutine := true, owner := some 7 }

/-- A sample scheduler state holding `sampleTask`, with no loop thread. -/
def sampleState : SchedulerState :=
  { heap := [(0, sampleTask)], live := [0], coalesce_map := [],
    debounce_timers := [], periodic_timers := [], executor_shutdown := false,
    has_loop := false, loop_started := false, next_id := 1, next_handle := 0 }

/-- Witness for C5 at a concrete state: cancelling task 0 twice equals
cancelling it once, and cancelling the unknown id 77 changes nothing. -/
theorem cancel_idempotent_witness :
    cancel (cancel sampleState 0) 0 = cancel sampleState 0 ∧
    cancel sampleState 77 = sampleState :=
  ⟨(cancel_idempotent sampleState 0).1,
   (cancel_idempotent sampleState 77).2 (by decide)⟩

/-- A live sync task used by witnesses. -/
def syncTask : ScheduledTask :=
  { id := 0, func := ⟨2, none⟩, args := [8], is_coroutine := false,
    owner := some 3 }

/-- A concrete scheduler state holding `syncTask`, everything running. -/
def syncState : SchedulerState :=
  { heap := [(0, syncTask)], live := [0], coalesce_map := [],
    debounce_timers := [], periodic_timers := [], executor_shutdown := false,
    has_loop := true, loop_started := true, next_id := 1, next_handle := 0 }

theorem dispatchTask_cancelled {run : Run} {s : SchedulerState} {tid : TaskId}
    {sched : ScheduledTask} (hheap : alookup tid s.heap = some sched)
    (hc : sched.cancelled = true) : dispatchTask run s tid = .ok (s, []) := by
  simp [dispatchTask, hheap, hc]

theorem dispatchTask_superseded {run : Run} {s : SchedulerState} {tid : TaskId}
    {sched : ScheduledTask} (hheap : alookup tid s.heap = some sched)
    (hc : sched.cancelled = false) (hsup : supersededB s sched = true) :
    dispatchTask run s tid =
      .ok ({ s with heap := aset tid { sched with cancelled := true } s.heap },
           []) := by
  simp [dispatchTask, hheap, hc, hsup]

theorem dispatchTask_sync {run : Run} {s : SchedulerState} {tid : TaskId}
    {sched : ScheduledTask} (hheap : alookup tid s.heap = some sched)
    (hc : sched.cancelled = false) (hsup : supersededB s sched = false)
    (hico : sched.is_coroutine = false) (hpool : s.executor_shutdown = false) :
    dispatchTask run s tid =
      .ok ({ s with
              heap := aset tid { sched with last_future := some s.next_handle }
                s.heap,
              next_handle := s.next_handle + 1 },
           [syncExecutorWrapper run
              { sched with last_future := some s.next_handle }]) := by
  simp [dispatchTask, hheap, hc, hsup, hico, scheduleSync, hpool]

theorem dispatchTask_coro {run : Run} {s : SchedulerState} {tid : TaskId}
    {sched : ScheduledTask} (hheap : alookup tid s.heap = some sched)
    (hc : sched.cancelled = false) (hsup : supersededB s sched = false)
    (hico : sched.is_coroutine = true) (hl : s.has_loop = true)
    (hls : s.loop_started = true) :
    dispatchTask run s tid =
      .ok ({ s with
              heap := aset tid { sched with last_future := some s.next_handle }
                s.heap,
              next_handle := s.next_handle + 1 },
           [mkDoneEvent sched.id sched.owner (run sched.func sched.args)]) := by
  simp [dispatchTask, hheap, hc, hsup, hico, scheduleCoro, hl, hls]

theorem dispatchTask_coro_fail {run : Run} {s : SchedulerState} {tid : TaskId}
    {sched : ScheduledTask} {e : Exc} (hheap : alookup tid s.heap = some sched)
    (hc : sched.cancelled = false) (hsup : supersededB s sched = false)
    (hico : sched.is_coroutine = true)
    (he : scheduleCoro run s tid sched = .error e) :
    dispatchTask run s tid =
      .ok (s, [{ taskId := sched.id, owner := sched.func.self,
                 result := none, error := some e }]) := by
  simp [dispatchTask, hheap, hc, hsup, hico, he]

/-- A task that reaches the routing step while the pool is live yields exactly
one completion event, on every route (pool, loop, caught submit failure). -/
theorem dispatchTask_ready_ok (run : Run) (s : SchedulerState) (tid : TaskId)
    (sched : ScheduledTask) (hheap : alookup tid s.heap = some sched)
    (hc : sched.cancelled = false) (hsup : supersededB s sched = false)
    (hpool : s.executor_shutdown = false) :
    ∃ s' ev, dispatchTask run s tid = .ok (s', [ev]) ∧
      ev.taskId = sched.id ∧ ev.result.isSome = !ev.error.isSome := by
  by_cases hico : sched.is_coroutine
  · by_cases hl : s.has_loop
    · by_cases hls : s.loop_started
      · exact ⟨_, _, dispatchTask_coro hheap hc hsup hico hl hls,
          mkDoneEvent_taskId .., mkDoneEvent_exclusive ..⟩
      · exact ⟨s, ⟨sched.id, sched.func.self, none, some .loopNotStarted⟩,
          dispatchTask_coro_fail hheap hc hsup hico
            (by simp [scheduleCoro, hl, hls]), rfl, rfl⟩
    · exact ⟨s, ⟨sched.id, sched.func.self, none, some .notConfigured⟩,
        dispatchTask_coro_fail hheap hc hsup hico (by simp [scheduleCoro, hl]),
        rfl, rfl⟩
  · exact ⟨_, _, dispatchTask_sync hheap hc hsup (by simpa using hico) hpool,
      mkDoneEvent_taskId .., mkDoneEvent_exclusive ..⟩

/-- The heap slot of a freshly registered keyless `scheduleOnce` task. -/
theorem registerOnce_keyless_lookup {s : SchedulerState} (hfresh : FreshInv s)
    (w : WorkItem) (a : List Nat) (ico : Bool) (ow : Option Nat)
    (dm : Option Int) (pr : Int) (now : Nat) :
    alookup s.next_id (registerOnce s w a ico ow none dm pr now).heap =
      some (mkOnceTask s w a ico ow none dm pr now) := by
  show alookup s.next_id
      (s.heap ++ [(s.next_id, mkOnceTask s w a ico ow none dm pr now)]) = _
  rw [alookup_append_of_none (alookup_fresh_none hfresh)]
  simp [alookup]

/-- C6 counterexample: the scheduler performs no interval validation. A
`scheduleOnce` call with debounce interval 0 (non-positive) raises nothing:
it returns task id 0, registers the task (which the claim says must not
happen), and even dispatches it immediately, producing a completion event.
Likewise `schedulePeriodic` with interval 0 registers its task and arms the
repeating timer without raising. -/
theorem interval_validation_counterexample :
    (∃ s ev, scheduleOnce runW (initState true) ⟨2, none⟩ [] false none none
        (some 0) 0 0 = .ok (s, [ev], 0) ∧ s.live = [0]) ∧
    (schedulePeriodic (initState true) ⟨2, none⟩ 0 [] false none none 0 0).1.live
      = [0] ∧
    (schedulePeriodic (initState true) ⟨2, none⟩ 0 [] false none none 0 0).1.periodic_timers
      = [0] := by
  refine ⟨⟨_, _, rfl, rfl⟩, rfl, rfl⟩

/-- C6 amended: neither scheduling entry point validates its interval argument;
no error is raised for a non-positive interval. `scheduleOnce` with any
debounce value returns normally (a 0 or absent debounce is falsy and dispatches
immediately, a negative one arms the timer), and `schedulePeriodic` registers
its task and arms the repeating timer for every interval value. -/
theorem interval_not_validated (run : Run) (s : SchedulerState) (w : WorkItem)
    (a : List Nat) (ico : Bool) (ow : Option Nat) (ck : Option String)
    (i : Int) (pr : Int) (now : Nat)
    (hpool : s.executor_shutdown = false) (hfresh : FreshInv s) :
    (∃ s' evs tid, scheduleOnce run s w a ico ow none (some i) pr now
        = .ok (s', evs, tid)) ∧
    (schedulePeriodic s w i a ico ow ck pr now).1.live = s.live ++ [s.next_id] ∧
    (schedulePeriodic s w i a ico ow ck pr now).1.periodic_timers
      = s.periodic_timers ++ [s.next_id] := by
  refine ⟨?_, rfl, rfl⟩
  by_cases hi : i = 0
  · subst hi
    obtain ⟨s', ev, hd, -, -⟩ :=
      dispatchTask_ready_ok run (registerOnce s w a ico ow none (some 0) pr now)
        s.next_id (mkOnceTask s w a ico ow none (some 0) pr now)
        (registerOnce_keyless_lookup hfresh w a ico ow (some 0) pr now)
        rfl (by simp [supersededB, mkOnceTask]) hpool
    refine ⟨s', [ev], s.next_id, ?_⟩
    simp only [scheduleOnce, truthyInt]
    rw [hd]
    simp
  · simp [scheduleOnce, truthyInt, hi]

/-- Witness for the amended C6 on a live scheduler with a negative interval. -/
theorem interval_not_validated_witness :
    (∃ s' evs tid, scheduleOnce runW (initState true) ⟨2, none⟩ [] false none
        none (some (-5)) 0 0 = .ok (s', evs, tid)) ∧
    (schedulePeriodic (initState true) ⟨2, none⟩ (-5) [] false none none 0 0).1.live
      = (initState true).live ++ [(initState true).next_id] ∧
    (schedulePeriodic (initState true) ⟨2, none⟩ (-5) [] false none none 0 0).1.periodic_timers
      = (initState true).periodic_timers ++ [(initState true).next_id] :=
  interval_not_validated runW (initState true) ⟨2, none⟩ [] false none none
    (-5) 0 0 rfl (by simp [FreshInv, initState])

/-- C8 counterexample: on the failure-to-submit path of an async work item, the
completion event does not carry the owner token supplied at the schedule call.
Scheduling a coroutine task with owner token 7 on a scheduler whose loop thread
is gone emits the single error event with owner slot `None`
(`getattr(func, "__self__", None)`), not 7. -/
theorem owner_token_counterexample :
    ∃ s ev, scheduleOnce runW (shutdown (initState true) true) ⟨2, none⟩ []
        true (some 7) none none 0 0 = .ok (s, [ev], 0) ∧
      ev.owner = none ∧ ev.owner ≠ some 7 := by
  refine ⟨_, _, rfl, rfl, by decide⟩

/-- C8 amended: the completion event carries exactly the supplied owner token
on the normal-return and raised-exception paths of both executors; on the
failure-to-submit path of an async work item, however, the emitted error event
carries `getattr(func, "__self__", None)` in its owner slot instead of the
owner token. The scheduling logic never inspects the token (every statement is
uniform in the `owner` value). -/
theorem completion_event_owner (run : Run) (s : SchedulerState) (tid : TaskId)
    (sched : ScheduledTask) (hheap : alookup tid s.heap = some sched)
    (hnc : sched.cancelled = false) (hsup : supersededB s sched = false) :
    (syncExecutorWrapper run sched).owner = sched.owner ∧
    (∀ s' evs, scheduleCoro run s tid sched = .ok (s', evs) →
        ∀ ev ∈ evs, ev.owner = sched.owner) ∧
    (∀ e, scheduleCoro run s tid sched = .error e → sched.is_coroutine = true →
        dispatchTask run s tid =
          .ok (s, [{ taskId := sched.id, owner := sched.func.self,
                     result := none, error := some e }])) := by
  refine ⟨mkDoneEvent_owner _ _ _, ?_, ?_⟩
  · intro s' evs hok ev hev
    by_cases hl : s.has_loop
    · by_cases hls : s.loop_started
      · simp only [scheduleCoro, hl, hls, Bool.not_true, Bool.false_eq_true,
          if_false, Except.ok.injEq, Prod.mk.injEq] at hok
        obtain ⟨-, hevs⟩ := hok
        subst hevs
        simp only [List.mem_singleton] at hev
        subst hev
        exact mkDoneEvent_owner _ _ _
      · simp [scheduleCoro, hl, hls] at hok
    · simp [scheduleCoro, hl] at hok
  · intro e he hico
    exact dispatchTask_coro_fail hheap hnc hsup hico he

/-- Witness for the amended C8: sync-wrapper owner preserved, and the
submit-failure event for `sampleTask` carries the bound receiver 1, not the
owner token 7. -/
theorem completion_event_owner_witness :
    (syncExecutorWrapper runW sampleTask).owner = sampleTask.owner ∧
    dispatchTask runW sampleState 0 =
      .ok (sampleState, [{ taskId := sampleTask.id, owner := sampleTask.func.self,
                           result := none, error := some .notConfigured }]) :=
  ⟨(completion_event_owner runW sampleState 0 sampleTask rfl rfl rfl).1,
   (completion_event_owner runW sampleState 0 sampleTask rfl rfl rfl).2.2
     .notConfigured rfl rfl⟩

/-- C3: `_dispatch` is a no-op on a cancelled task; on a coalesced task whose
registered holder is a different id it only marks the task cancelled and
submits nothing; otherwise it routes sync tasks to the pool and async tasks to
the loop, recording the returned execution handle (`last_future`) on the task
object. -/
theorem dispatch_routing (run : Run) (s : SchedulerState) (tid : TaskId)
    (sched : ScheduledTask) (hheap : alookup tid s.heap = some sched) :
    (sched.cancelled = true → dispatchTask run s tid = .ok (s, [])) ∧
    (sched.cancelled = false → supersededB s sched = true →
      dispatchTask run s tid =
        .ok ({ s with heap := aset tid { sched with cancelled := true } s.heap },
             [])) ∧
    (sched.cancelled = false → supersededB s sched = false →
      sched.is_coroutine = false → s.executor_shutdown = false →
      dispatchTask run s tid =
        .ok ({ s with
                heap := aset tid { sched with last_future := some s.next_handle }
                  s.heap,
                next_handle := s.next_handle + 1 },
             [syncExecutorWrapper run
                { sched with last_future := some s.next_handle }])) ∧
    (sched.cancelled = false → supersededB s sched = false →
      sched.is_coroutine = true → s.has_loop = true → s.loop_started = true →
      dispatchTask run s tid =
        .ok ({ s with
                heap := aset tid { sched with last_future := some s.next_handle }
                  s.heap,
                next_handle := s.next_handle + 1 },
             [mkDoneEvent sched.id sched.owner (run sched.func sched.args)])) :=
  ⟨fun hc => dispatchTask_cancelled hheap hc,
   fun hc hsup => dispatchTask_superseded hheap hc hsup,
   fun hc hsup hico hpool => dispatchTask_sync hheap hc hsup hico hpool,
   fun hc hsup hico hl hls => dispatchTask_coro hheap hc hsup hico hl hls⟩

/-- Witness for C3: dispatching the live sync task of a concrete state submits
it to the pool, records handle 0 on the task, and yields its one event. -/
theorem dispatch_routing_witness :
    dispatchTask runW syncState 0 =
      .ok ({ syncState with
               heap := aset 0
                 { syncTask with last_future := some syncState.next_handle }
                 syncState.heap,
               next_handle := syncState.next_handle + 1 },
           [syncExecutorWrapper runW
              { syncTask with last_future := some syncState.next_handle }]) :=
  (dispatch_routing runW syncState 0 syncTask rfl).2.2.1 rfl rfl rfl rfl

/-- C1 counterexample: a task that reaches the executor-routing step of
`_dispatch` with its cancelled flag clear can yield zero completion events.
After `shutdown`, the very same immediate sync `scheduleOnce` call that on a
live scheduler yields exactly one event instead propagates the submission
error of the pool and emits nothing. -/
theorem single_event_counterexample :
    scheduleOnce runW (shutdown (initState true) true) ⟨2, none⟩ [] false none
        none none 0 0 = .error .poolShutdown ∧
    ∃ s ev, scheduleOnce runW (initState true) ⟨2, none⟩ [] false none
        none none 0 0 = .ok (s, [ev], 0) := by
  exact ⟨rfl, _, _, rfl⟩

/-- C1 amended: provided the sync pool has not been shut down, every task that
reaches the executor-routing step of `_dispatch` with its cancelled flag clear
yields exactly one completion event, carrying its task id and either a result
or an error and never both; a task whose cancelled flag is set strictly before
dispatch yields zero completion events. (After pool shutdown, routing a sync
task raises from the submission call and emits nothing.) -/
theorem dispatched_single_event (run : Run) (s : SchedulerState) (tid : TaskId)
    (sched : ScheduledTask) (hheap : alookup tid s.heap = some sched)
    (hpool : s.executor_shutdown = false) :
    (sched.cancelled = true → dispatchTask run s tid = .ok (s, [])) ∧
    (sched.cancelled = false → supersededB s sched = false →
      ∃ s' ev, dispatchTask run s tid = .ok (s', [ev]) ∧
        ev.taskId = sched.id ∧ ev.result.isSome = !ev.error.isSome) :=
  ⟨fun hc => dispatchTask_cancelled hheap hc,
   fun hc hsup => dispatchTask_ready_ok run s tid sched hheap hc hsup hpool⟩

/-- Witness for the amended C1: dispatching the concrete live sync task yields
exactly one event, with matching id and exclusive result/error slots. -/
theorem dispatched_single_event_witness :
    ∃ s' ev, dispatchTask runW syncState 0 = .ok (s', [ev]) ∧
      ev.taskId = syncTask.id ∧ ev.result.isSome = !ev.error.isSome :=
  (dispatched_single_event runW syncState 0 syncTask rfl rfl).2 rfl rfl

theorem alookup_of_tasksGet {s : SchedulerState} {tid : TaskId}
    {sched : ScheduledTask} (h : tasksGet s tid = some sched) :
    alookup tid s.heap = some sched := by
  by_cases hm : tid ∈ s.live
  · simpa [tasksGet, hm] using h
  · simp [tasksGet, hm] at h

theorem cancel_frame (s : SchedulerState) (tid : TaskId) :
    (cancel s tid).next_id = s.next_id ∧
    (cancel s tid).next_handle = s.next_handle ∧
    (cancel s tid).executor_shutdown = s.executor_shutdown ∧
    (cancel s tid).has_loop = s.has_loop ∧
    (cancel s tid).loop_started = s.loop_started := by
  cases h : tasksGet s tid <;> simp [cancel, h]

theorem cancel_fresh {s : SchedulerState} (h : FreshInv s) (tid : TaskId) :
    FreshInv (cancel s tid) := by
  cases hg : tasksGet s tid with
  | none => simpa [cancel, hg] using h
  | some sched =>
    intro p hp
    simp only [cancel, hg] at hp ⊢
    rcases mem_aset hp with h1 | h1
    · have htid := h _ (mem_of_alookup (alookup_of_tasksGet hg))
      subst h1
      exact htid
    · exact h p h1

theorem foldl_cancel_fresh (l : List TaskId) {s : SchedulerState}
    (h : FreshInv s) : FreshInv (l.foldl cancel s) := by
  induction l generalizing s with
  | nil => exact h
  | cons x t ih => exact ih (cancel_fresh h x)

theorem foldl_cancel_flags (l : List TaskId) (s : SchedulerState) :
    (l.foldl cancel s).next_id = s.next_id ∧
    (l.foldl cancel s).next_handle = s.next_handle := by
  induction l generalizing s with
  | nil => exact ⟨rfl, rfl⟩
  | cons x t ih =>
    have hc := cancel_frame s x
    have ht := ih (cancel s x)
    exact ⟨ht.1.trans hc.1, ht.2.trans hc.2.1⟩

theorem shutdown_fresh {s : SchedulerState} (h : FreshInv s) (wt : Bool) :
    FreshInv (shutdown s wt) := by
  intro p hp
  have h1 : FreshInv ({ s with periodic_timers := [], debounce_timers := [] }
      : SchedulerState) := h
  have h2 := foldl_cancel_fresh s.live h1
  exact h2 p hp

theorem registerOnce_frame (s : SchedulerState) (w : WorkItem) (a : List Nat)
    (ico : Bool) (ow : Option Nat) (ck : Option String) (dm : Option Int)
    (pr : Int) (now : Nat) :
    (registerOnce s w a ico ow ck dm pr now).next_handle = s.next_handle ∧
    (registerOnce s w a ico ow ck dm pr now).next_id = s.next_id + 1 ∧
    (registerOnce s w a ico ow ck dm pr now).executor_shutdown
      = s.executor_shutdown ∧
    (registerOnce s w a ico ow ck dm pr now).has_loop = s.has_loop ∧
    (registerOnce s w a ico ow ck dm pr now).loop_started = s.loop_started ∧
    (registerOnce s w a ico ow ck dm pr now).debounce_timers
      = s.debounce_timers ∧
    (registerOnce s w a ico ow ck dm pr now).periodic_timers
      = s.periodic_timers ∧
    (registerOnce s w a ico ow ck dm pr now).live = s.live ++ [s.next_id] :=
  ⟨rfl, rfl, rfl, rfl, rfl, rfl, rfl, rfl⟩

/-- When the pool is shut down and the loop thread is gone, a dispatch that
returns normally created no execution handle at all. -/
theorem dispatchTask_no_submit {run : Run} {s : SchedulerState} {tid : TaskId}
    (hshut : s.executor_shutdown = true) (hnl : s.has_loop = false)
    {s' : SchedulerState} {evs : List CompletionEvent}
    (h : dispatchTask run s tid = .ok (s', evs)) :
    s'.next_handle = s.next_handle := by
  unfold dispatchTask at h
  cases hl : alookup tid s.heap with
  | none =>
    rw [hl] at h
    simp only [Except.ok.injEq, Prod.mk.injEq] at h
    rw [← h.1]
  | some sched =>
    rw [hl] at h
    by_cases hc : sched.cancelled = true
    · simp only [hc, if_true, Except.ok.injEq, Prod.mk.injEq] at h
      rw [← h.1]
    · simp only [hc, if_false, Bool.false_eq_true] at h
      by_cases hsup : supersededB s sched = true
      · simp only [hsup, if_true, Except.ok.injEq, Prod.mk.injEq] at h
        rw [← h.1]
      · simp only [hsup, if_false, Bool.false_eq_true] at h
        by_cases hico : sched.is_coroutine = true
        · simp only [hico, if_true] at h
          rw [show scheduleCoro run s tid sched = .error .notConfigured by
            simp [scheduleCoro, hnl]] at h
          simp only [Except.ok.injEq, Prod.mk.injEq] at h
          rw [← h.1]
        · simp only [hico, if_false, Bool.false_eq_true] at h
          rw [show scheduleSync run s tid sched = .error .poolShutdown by
            simp [scheduleSync, hshut]] at h
          exact absurd h (by simp)

/-- C7: after `shutdown(wait)` has returned, any further `scheduleOnce` call
either raises synchronously (an immediate sync dispatch propagates the pool
submission error, a rejection) or returns without ever submitting work to an
executor (no execution handle is created: `next_handle` unchanged). The model
is a total function, so no call path can hang the caller. -/
theorem schedule_after_shutdown (run : Run) (s : SchedulerState) (wt : Bool)
    (w : WorkItem) (a : List Nat) (ico : Bool) (ow : Option Nat)
    (ck : Option String) (dm : Option Int) (pr : Int) (now : Nat)
    (hfresh : FreshInv s) :
    (∀ s' evs tid,
        scheduleOnce run (shutdown s wt) w a ico ow ck dm pr now
          = .ok (s', evs, tid) →
        s'.next_handle = (shutdown s wt).next_handle) ∧
    scheduleOnce run (shutdown s wt) w a false ow none none pr now
      = .error .poolShutdown := by
  have hshut : (shutdown s wt).executor_shutdown = true := rfl
  have hnl : (shutdown s wt).has_loop = false := rfl
  have hfresh0 : FreshInv (shutdown s wt) := shutdown_fresh hfresh wt
  constructor
  · intro s' evs tid h
    by_cases hdm : truthyInt dm = true
    · simp only [scheduleOnce, hdm, if_true, Except.ok.injEq,
        Prod.mk.injEq] at h
      rw [← h.1]
      exact (registerOnce_frame (shutdown s wt) w a ico ow ck dm pr now).1
    · simp only [scheduleOnce, hdm, if_false, Bool.false_eq_true] at h
      cases hd : dispatchTask run
          (registerOnce (shutdown s wt) w a ico ow ck dm pr now)
          (shutdown s wt).next_id with
      | error e => rw [hd] at h; exact absurd h (by simp)
      | ok r =>
        rw [hd] at h
        obtain ⟨s3, evs3⟩ := r
        simp only [Except.ok.injEq, Prod.mk.injEq] at h
        have hreg := registerOnce_frame (shutdown s wt) w a ico ow ck dm pr now
        have hns := dispatchTask_no_submit
          (hreg.2.2.1.trans hshut) (hreg.2.2.2.1.trans hnl) hd
        rw [← h.1]
        exact hns.trans hreg.1
  · have hlook := registerOnce_keyless_lookup hfresh0 w a false ow none pr now
    have hdisp : dispatchTask run
        (registerOnce (shutdown s wt) w a false ow none none pr now)
        (shutdown s wt).next_id = .error .poolShutdown := by
      simp [dispatchTask, hlook, supersededB, mkOnceTask, scheduleSync,
        show (registerOnce (shutdown s wt) w a false ow none none pr
          now).executor_shutdown = true from rfl]
    simp only [scheduleOnce, truthyInt]
    rw [hdisp]
    simp

/-- Witness for C7: on a concrete shut-down scheduler, a further immediate sync
`scheduleOnce` raises the pool submission error. -/
theorem schedule_after_shutdown_witness :
    scheduleOnce runW (shutdown (initState true) true) ⟨2, none⟩ [] false none
      none none 0 0 = .error .poolShutdown :=
  (schedule_after_shutdown runW (initState true) true ⟨2, none⟩ [] false none
    none none 0 0 (by simp [FreshInv, initState])).2

/-- C9: `schedulePeriodic` never records its task id in the coalesce map, so a
periodic task with a truthy coalesce key is superseded at its very first tick:
the tick marks it cancelled and emits nothing, the task never reaches an
executor, and every later tick is a no-op as well. -/
theorem periodic_coalesce_starves (run : Run) (s : SchedulerState)
    (w : WorkItem) (i : Int) (a : List Nat) (ico : Bool) (ow : Option Nat)
    (k : String) (pr : Int) (now : Nat) (s1 : SchedulerState) (tid : TaskId)
    (hk : k ≠ "") (hfresh : FreshInv s) (hmap : MapBelow s)
    (h : schedulePeriodic s w i a ico ow (some k) pr now = (s1, tid)) :
    s1.coalesce_map = s.coalesce_map ∧
    ∃ t, alookup tid s1.heap = some t ∧ t.cancelled = false ∧
      t.coalesce_key = some k ∧
      periodicTick run s1 tid =
        .ok ({ s1 with heap := aset tid { t with cancelled := true } s1.heap },
             []) ∧
      periodicTick run
          { s1 with heap := aset tid { t with cancelled := true } s1.heap } tid =
        .ok ({ s1 with heap := aset tid { t with cancelled := true } s1.heap },
             []) := by
  have hs1 : s1 =
      { s with
        next_id := s.next_id + 1,
        heap := s.heap ++
          [(s.next_id, mkPeriodicTask s w i a ico ow (some k) pr now)],
        live := s.live ++ [s.next_id],
        periodic_timers := s.periodic_timers ++ [s.next_id] } :=
    (congrArg Prod.fst h).symm
  have htid : tid = s.next_id := (congrArg Prod.snd h).symm
  subst hs1
  subst htid
  have hlook : alookup s.next_id
      (s.heap ++ [(s.next_id, mkPeriodicTask s w i a ico ow (some k) pr now)])
      = some (mkPeriodicTask s w i a ico ow (some k) pr now) := by
    rw [alookup_append_of_none (alookup_fresh_none hfresh)]
    simp [alookup]
  have hsup : supersededB
      { s with
        next_id := s.next_id + 1,
        heap := s.heap ++
          [(s.next_id, mkPeriodicTask s w i a ico ow (some k) pr now)],
        live := s.live ++ [s.next_id],
        periodic_timers := s.periodic_timers ++ [s.next_id] }
      (mkPeriodicTask s w i a ico ow (some k) pr now) = true := by
    simp only [supersededB, mkPeriodicTask]
    rw [if_neg (by simpa using hk)]
    cases hl : alookup k s.coalesce_map with
    | none => simp
    | some j =>
      have hj : j < s.next_id := hmap _ (mem_of_alookup hl)
      simp [Nat.ne_of_lt hj]
  refine ⟨rfl, mkPeriodicTask s w i a ico ow (some k) pr now, hlook, rfl, rfl,
    ?_, ?_⟩
  · exact dispatchTask_superseded hlook rfl hsup
  · exact dispatchTask_cancelled (alookup_aset_self ..) rfl

/-- Witness for C9 on a fresh scheduler: the periodic task with key "p" is
cancelled by its first tick with no completion events. -/
theorem periodic_coalesce_starves_witness :
    (initState true).coalesce_map = (initState true).coalesce_map ∧
    ∃ t, alookup 0 ((schedulePeriodic (initState true) ⟨2, none⟩ 100 [] false
        none (some "p") 0 0).1).heap = some t ∧ t.cancelled = false ∧
      t.coalesce_key = some "p" ∧
      periodicTick runW (schedulePeriodic (initState true) ⟨2, none⟩ 100 []
          false none (some "p") 0 0).1 0 =
        .ok ({ (schedulePeriodic (initState true) ⟨2, none⟩ 100 [] false none
                 (some "p") 0 0).1 with
                 heap := aset 0 { t with cancelled := true }
                   ((schedulePeriodic (initState true) ⟨2, none⟩ 100 [] false
                     none (some "p") 0 0).1).heap }, []) ∧
      periodicTick runW
          { (schedulePeriodic (initState true) ⟨2, none⟩ 100 [] false none
              (some "p") 0 0).1 with
              heap := aset 0 { t with cancelled := true }
                ((schedulePeriodic (initState true) ⟨2, none⟩ 100 [] false none
                  (some "p") 0 0).1).heap } 0 =
        .ok ({ (schedulePeriodic (initState true) ⟨2, none⟩ 100 [] false none
                 (some "p") 0 0).1 with
                 heap := aset 0 { t with cancelled := true }
                   ((schedulePeriodic (initState true) ⟨2, none⟩ 100 [] false
                     none (some "p") 0 0).1).heap }, []) := by
  have hc : ((schedulePeriodic (initState true) ⟨2, none⟩ 100 [] false none
      (some "p") 0 0).1).coalesce_map = (initState true).coalesce_map ∧ _ :=
    periodic_coalesce_starves runW (initState true) ⟨2, none⟩ 100 [] false none
      "p" 0 0 _ 0 (by decide) (by simp [FreshInv, initState])
      (by simp [MapBelow, initState]) rfl
  exact ⟨rfl, hc.2⟩

theorem scheduleSync_live {run : Run} {s : SchedulerState} {tid : TaskId}
    {sched : ScheduledTask} {s' : SchedulerState} {evs : List CompletionEvent}
    (h : scheduleSync run s tid sched = .ok (s', evs)) : s'.live = s.live := by
  unfold scheduleSync at h
  by_cases hp : s.executor_shutdown = true
  · simp [hp] at h
  · simp only [hp, Bool.false_eq_true, if_false, Except.ok.injEq,
      Prod.mk.injEq] at h
    rw [← h.1]

theorem scheduleCoro_live {run : Run} {s : SchedulerState} {tid : TaskId}
    {sched : ScheduledTask} {s' : SchedulerState} {evs : List CompletionEvent}
    (h : scheduleCoro run s tid sched = .ok (s', evs)) : s'.live = s.live := by
  unfold scheduleCoro at h
  by_cases hl : s.has_loop = true
  · by_cases hls : s.loop_started = true
    · simp only [hl, hls, Bool.not_true, Bool.false_eq_true, if_false,
        Except.ok.injEq, Prod.mk.injEq] at h
      rw [← h.1]
    · simp [hl, hls] at h
  · simp [hl] at h

/-- A dispatch that returns normally never removes a registry entry: the live
id list is unchanged on every path of `_dispatch`. -/
theorem dispatchTask_live {run : Run} {s : SchedulerState} {tid : TaskId}
    {s' : SchedulerState} {evs : List CompletionEvent}
    (h : dispatchTask run s tid = .ok (s', evs)) : s'.live = s.live := by
  unfold dispatchTask at h
  cases hl : alookup tid s.heap with
  | none =>
    rw [hl] at h
    simp only [Except.ok.injEq, Prod.mk.injEq] at h
    rw [← h.1]
  | some sched =>
    rw [hl] at h
    by_cases hc : sched.cancelled = true
    · simp only [hc, if_true, Except.ok.injEq, Prod.mk.injEq] at h
      rw [← h.1]
    · simp only [hc, Bool.false_eq_true, if_false] at h
      by_cases hsup : supersededB s sched = true
      · simp only [hsup, if_true, Except.ok.injEq, Prod.mk.injEq] at h
        rw [← h.1]
      · simp only [hsup, Bool.false_eq_true, if_false] at h
        by_cases hico : sched.is_coroutine = true
        · simp only [hico, if_true] at h
          cases hcr : scheduleCoro run s tid sched with
          | ok r =>
            rw [hcr] at h
            obtain ⟨s₂, evs₂⟩ := r
            simp only [Except.ok.injEq, Prod.mk.injEq] at h
            rw [← h.1]
            exact scheduleCoro_live hcr
          | error e =>
            rw [hcr] at h
            simp only [Except.ok.injEq, Prod.mk.injEq] at h
            rw [← h.1]
        · simp only [hico, Bool.false_eq_true, if_false] at h
          exact scheduleSync_live h

/-- The coalesce bookkeeping in the superseding case: the previous holder is
live, not cancelled and has no execution handle, so its cancelled flag is set
and the new task takes over the key. -/
theorem coalesceStep_supersede (s1 : SchedulerState) (task_id : TaskId)
    {k : String} {pid : TaskId} {prev : ScheduledTask} (hk : k ≠ "")
    (hhold : alookup k s1.coalesce_map = some pid)
    (htg : tasksGet s1 pid = some prev)
    (hnc : prev.cancelled = false) (hnf : prev.last_future = none) :
    coalesceStep s1 task_id (some k) =
      (aset pid { prev with cancelled := true } s1.heap,
       aset k task_id s1.coalesce_map) := by
  simp only [coalesceStep]
  rw [if_neg (show ¬((k == "") = true) by simpa using hk)]
  simp only [hhold, htg, hnc, hnf]
  simp

/-- C10: when a `scheduleOnce` call supersedes the previous coalesce holder,
the only change to the previous task object is its cancelled flag: its record
stays in the registry, its pending debounce timer is untouched at that moment,
and every other field (execution handle included) is unchanged. The call
removes no registry entry, and a later dispatch removes none either (only
`cancel`, also as invoked by `shutdown`, removes entries). -/
theorem supersede_frame (run : Run) (s : SchedulerState) (w : WorkItem)
    (a : List Nat) (ico : Bool) (ow : Option Nat) (k : String) (d : Int)
    (pr : Int) (now : Nat) (pid : TaskId) (prev : ScheduledTask)
    (hk : k ≠ "") (hd : d ≠ 0)
    (hhold : alookup k s.coalesce_map = some pid)
    (hlive : pid ∈ s.live)
    (hrec : alookup pid s.heap = some prev)
    (hnc : prev.cancelled = false) (hnf : prev.last_future = none) :
    ∃ s', scheduleOnce run s w a ico ow (some k) (some d) pr now
        = .ok (s', [], s.next_id) ∧
      alookup pid s'.heap = some { prev with cancelled := true } ∧
      pid ∈ s'.live ∧
      s'.debounce_timers = s.debounce_timers ++ [s.next_id] ∧
      s'.periodic_timers = s.periodic_timers ∧
      s'.coalesce_map = aset k s.next_id s.coalesce_map ∧
      (∀ x ∈ s.live, x ∈ s'.live) ∧
      (∀ run₂ tid₂ s₂ evs, dispatchTask run₂ s' tid₂ = .ok (s₂, evs) →
        s₂.live = s'.live) := by
  have hreg : registerOnce s w a ico ow (some k) (some d) pr now =
      { s with
        next_id := s.next_id + 1,
        heap := aset pid { prev with cancelled := true }
          (s.heap ++
            [(s.next_id, mkOnceTask s w a ico ow (some k) (some d) pr now)]),
        live := s.live ++ [s.next_id],
        coalesce_map := aset k s.next_id s.coalesce_map } := by
    simp only [registerOnce]
    rw [coalesceStep_supersede
      (regInsert s (mkOnceTask s w a ico ow (some k) (some d) pr now))
      s.next_id hk hhold
      (show tasksGet
          (regInsert s (mkOnceTask s w a ico ow (some k) (some d) pr now)) pid
          = some prev by
        simp [tasksGet, regInsert, hlive, alookup_append_of_some hrec]) hnc hnf]
    rfl
  have htd : truthyInt (some d) = true := by simp [truthyInt, hd]
  refine ⟨{ s with
      next_id := s.next_id + 1,
      heap := aset pid { prev with cancelled := true }
        (s.heap ++
          [(s.next_id, mkOnceTask s w a ico ow (some k) (some d) pr now)]),
      live := s.live ++ [s.next_id],
      coalesce_map := aset k s.next_id s.coalesce_map,
      debounce_timers := s.debounce_timers ++ [s.next_id] },
    ?_, alookup_aset_self .., List.mem_append_left _ hlive, rfl, rfl, rfl,
    fun x hx => List.mem_append_left _ hx,
    fun _ _ _ _ hh => dispatchTask_live hh⟩
  simp only [scheduleOnce, htd, if_true]
  rw [hreg]

/-- A pending debounced task holding coalesce key "k", for witnesses. -/
def heldTask : ScheduledTask :=
  { id := 0, func := ⟨2, none⟩, args := [], is_coroutine := false,
    owner := some 1, coalesce_key := some "k", debounce_ms := some 200 }

/-- A concrete state where `heldTask` is the registered holder of key "k" and
its debounce timer is pending. -/
def heldState : SchedulerState :=
  { heap := [(0, heldTask)], live := [0], coalesce_map := [("k", 0)],
    debounce_timers := [0], periodic_timers := [], executor_shutdown := false,
    has_loop := true, loop_started := true, next_id := 1, next_handle := 0 }

/-- Witness for C10: superseding the concrete holder 0 only sets its cancelled
flag; the registry entry, the pending timer of task 0 and every other field
survive. -/
theorem supersede_frame_witness :
    ∃ s', scheduleOnce runW heldState ⟨4, none⟩ [] false (some 2) (some "k")
        (some 200) 0 0 = .ok (s', [], 1) ∧
      alookup 0 s'.heap = some { heldTask with cancelled := true } ∧
      0 ∈ s'.live ∧
      s'.debounce_timers = heldState.debounce_timers ++ [1] ∧
      s'.periodic_timers = heldState.periodic_timers ∧
      s'.coalesce_map = aset "k" 1 heldState.coalesce_map ∧
      (∀ x ∈ heldState.live, x ∈ s'.live) ∧
      (∀ run₂ tid₂ s₂ evs, dispatchTask run₂ s' tid₂ = .ok (s₂, evs) →
        s₂.live = s'.live) :=
  supersede_frame runW heldState ⟨4, none⟩ [] false (some 2) "k" 200 0 0 0
    heldTask (by decide) (by decide) rfl (by decide) rfl rfl rfl

/-- The coalesce bookkeeping when the key has no registered holder: only the
map changes. -/
theorem coalesceStep_nohold (s1 : SchedulerState) {k : String}
    (task_id : TaskId) (hk : k ≠ "")
    (h : alookup k s1.coalesce_map = none) :
    coalesceStep s1 task_id (some k)
      = (s1.heap, aset k task_id s1.coalesce_map) := by
  simp only [coalesceStep]
  rw [if_neg (show ¬((k == "") = true) by simpa using hk)]
  simp [h]

/-- The coalesce bookkeeping when the previous holder is kept (it is already
cancelled or already has an execution handle): only the map changes. -/
theorem coalesceStep_keep (s1 : SchedulerState) {k : String} (task_id : TaskId)
    {pid : TaskId} {prev : ScheduledTask} (hk : k ≠ "")
    (hhold : alookup k s1.coalesce_map = some pid)
    (htg : tasksGet s1 pid = some prev)
    (hcond : (!prev.cancelled && prev.last_future == none) = false) :
    coalesceStep s1 task_id (some k)
      = (s1.heap, aset k task_id s1.coalesce_map) := by
  simp only [coalesceStep]
  rw [if_neg (show ¬((k == "") = true) by simpa using hk)]
  simp [hhold, htg, hcond]

/-- Combined description of the registration step of a keyed `scheduleOnce` in
an invariant-respecting state: the new task becomes the registered holder, it
sits fresh in the heap, the record of every task not involved in the key is
untouched, and the previous holder is marked cancelled exactly when its
execution handle is still absent. -/
theorem registerOnce_coalesce (s : SchedulerState) (w : WorkItem) (a : List Nat)
    (ico : Bool) (ow : Option Nat) (k : String) (dm : Option Int) (pr : Int)
    (now : Nat) (hk : k ≠ "") (hfresh : FreshInv s) (hinv : HolderInv s) :
    (registerOnce s w a ico ow (some k) dm pr now).coalesce_map
      = aset k s.next_id s.coalesce_map ∧
    (registerOnce s w a ico ow (some k) dm pr now).live
      = s.live ++ [s.next_id] ∧
    alookup s.next_id (registerOnce s w a ico ow (some k) dm pr now).heap
      = some (mkOnceTask s w a ico ow (some k) dm pr now) ∧
    (∀ j t, j ≠ s.next_id → alookup k s.coalesce_map ≠ some j →
      alookup j s.heap = some t →
      alookup j (registerOnce s w a ico ow (some k) dm pr now).heap = some t) ∧
    (∀ pid prev, alookup k s.coalesce_map = some pid →
      alookup pid s.heap = some prev →
      ((alookup pid (registerOnce s w a ico ow (some k) dm pr now).heap
          = some { prev with cancelled := true })
        ↔ prev.last_future = none)) := by
  have hfreshlook : alookup s.next_id
      (regInsert s (mkOnceTask s w a ico ow (some k) dm pr now)).heap
      = some (mkOnceTask s w a ico ow (some k) dm pr now) := by
    show alookup s.next_id
      (s.heap ++ [(s.next_id, mkOnceTask s w a ico ow (some k) dm pr now)]) = _
    rw [alookup_append_of_none (alookup_fresh_none hfresh)]
    simp [alookup]
  cases hl : alookup k s.coalesce_map with
  | none =>
    have hstep := coalesceStep_nohold
      (regInsert s (mkOnceTask s w a ico ow (some k) dm pr now)) s.next_id hk hl
    refine ⟨?_, rfl, ?_, ?_, ?_⟩
    · show (coalesceStep (regInsert s (mkOnceTask s w a ico ow (some k) dm pr
        now)) s.next_id (some k)).2 = _
      rw [hstep]
      rfl
    · show alookup s.next_id (coalesceStep (regInsert s (mkOnceTask s w a ico
        ow (some k) dm pr now)) s.next_id (some k)).1 = _
      rw [hstep]
      exact hfreshlook
    · intro j t hj _ hjt
      show alookup j (coalesceStep (regInsert s (mkOnceTask s w a ico ow
        (some k) dm pr now)) s.next_id (some k)).1 = some t
      rw [hstep]
      exact alookup_append_of_some hjt
    · intro pid prev hpid
      exact absurd hpid (by simp)
  | some pid =>
    obtain ⟨hplive, prev₀, hprec, hpnc, -, -⟩ := hinv k pid hl
    have hppid : pid ≠ s.next_id := Nat.ne_of_lt (hfresh _ (mem_of_alookup hprec))
    have htg : tasksGet
        (regInsert s (mkOnceTask s w a ico ow (some k) dm pr now)) pid
        = some prev₀ := by
      simp [tasksGet, regInsert, hplive, alookup_append_of_some hprec]
    cases hnf : prev₀.last_future with
    | none =>
      have hstep := coalesceStep_supersede
        (regInsert s (mkOnceTask s w a ico ow (some k) dm pr now)) s.next_id
        hk hl htg hpnc hnf
      refine ⟨?_, rfl, ?_, ?_, ?_⟩
      · show (coalesceStep (regInsert s (mkOnceTask s w a ico ow (some k) dm pr
          now)) s.next_id (some k)).2 = _
        rw [hstep]
        rfl
      · show alookup s.next_id (coalesceStep (regInsert s (mkOnceTask s w a ico
          ow (some k) dm pr now)) s.next_id (some k)).1 = _
        rw [hstep]
        dsimp only
        rw [alookup_aset_ne (Ne.symm hppid)]
        exact hfreshlook
      · intro j t hj hjk hjt
        show alookup j (coalesceStep (regInsert s (mkOnceTask s w a ico ow
          (some k) dm pr now)) s.next_id (some k)).1 = some t
        rw [hstep]
        dsimp only
        have hjp : j ≠ pid := fun hh => hjk (by rw [hh])
        rw [alookup_aset_ne hjp]
        exact alookup_append_of_some hjt
      · intro pid₂ prev₂ hpid₂ hrec₂
        have hpe : pid₂ = pid := by simpa using hpid₂.symm
        subst hpe
        have hpr : prev₂ = prev₀ := by
          have h0 := hprec.symm.trans hrec₂
          simpa using h0.symm
        subst hpr
        constructor
        · intro _
          exact hnf
        · intro _
          show alookup pid₂ (coalesceStep (regInsert s (mkOnceTask s w a ico ow
            (some k) dm pr now)) s.next_id (some k)).1 = _
          rw [hstep]
          exact alookup_aset_self ..
    | some f =>
      have hstep := coalesceStep_keep
        (regInsert s (mkOnceTask s w a ico ow (some k) dm pr now)) s.next_id hk
        hl htg (by simp [hpnc, hnf])
      refine ⟨?_, rfl, ?_, ?_, ?_⟩
      · show (coalesceStep (regInsert s (mkOnceTask s w a ico ow (some k) dm pr
          now)) s.next_id (some k)).2 = _
        rw [hstep]
        rfl
      · show alookup s.next_id (coalesceStep (regInsert s (mkOnceTask s w a ico
          ow (some k) dm pr now)) s.next_id (some k)).1 = _
        rw [hstep]
        exact hfreshlook
      · intro j t hj _ hjt
        show alookup j (coalesceStep (regInsert s (mkOnceTask s w a ico ow
          (some k) dm pr now)) s.next_id (some k)).1 = some t
        rw [hstep]
        exact alookup_append_of_some hjt
      · intro pid₂ prev₂ hpid₂ hrec₂
        have hpe : pid₂ = pid := by simpa using hpid₂.symm
        subst hpe
        have hpr : prev₂ = prev₀ := by
          have h0 := hprec.symm.trans hrec₂
          simpa using h0.symm
        subst hpr
        constructor
        · intro hmark
          have hsame : alookup pid₂ (coalesceStep (regInsert s (mkOnceTask s w
              a ico ow (some k) dm pr now)) s.next_id (some k)).1
              = some prev₂ := by
            rw [hstep]
            exact alookup_append_of_some hrec₂
          rw [show alookup pid₂ (registerOnce s w a ico ow (some k) dm pr
            now).heap = alookup pid₂ (coalesceStep (regInsert s (mkOnceTask s w
            a ico ow (some k) dm pr now)) s.next_id (some k)).1 from rfl] at hmark
          rw [hsame] at hmark
          have : prev₂ = { prev₂ with cancelled := true } := by simpa using hmark
          have hcc := congrArg ScheduledTask.cancelled this
          rw [hpnc] at hcc
          exact absurd hcc.symm (by simp)
        · intro hff
          rw [hnf] at hff
          exact absurd hff (by simp)

/-- Dispatch of a ready task (live pool): the coalesce map and the registry are
untouched, only the slot of the dispatched task changes, and that slot keeps a
non-cancelled record with the same key. -/
theorem dispatchTask_ready_frame (run : Run) (s : SchedulerState)
    (tid : TaskId) (sched : ScheduledTask)
    (hheap : alookup tid s.heap = some sched) (hc : sched.cancelled = false)
    (hsup : supersededB s sched = false)
    (hpool : s.executor_shutdown = false) :
    ∃ s' evs, dispatchTask run s tid = .ok (s', evs) ∧
      s'.coalesce_map = s.coalesce_map ∧ s'.live = s.live ∧
      (∀ j, j ≠ tid → alookup j s'.heap = alookup j s.heap) ∧
      ∃ t', alookup tid s'.heap = some t' ∧ t'.cancelled = false ∧
        t'.coalesce_key = sched.coalesce_key := by
  by_cases hico : sched.is_coroutine
  · by_cases hl : s.has_loop
    · by_cases hls : s.loop_started
      · refine ⟨_, _, dispatchTask_coro hheap hc hsup hico hl hls, rfl, rfl,
          ?_, ?_⟩
        · intro j hj
          exact alookup_aset_ne hj _ _
        · exact ⟨_, alookup_aset_self .., hc, rfl⟩
      · exact ⟨s, _, dispatchTask_coro_fail hheap hc hsup hico
          (show scheduleCoro run s tid sched = .error .loopNotStarted by
            simp [scheduleCoro, hl, hls]), rfl, rfl, fun j _ => rfl,
          sched, hheap, hc, rfl⟩
    · exact ⟨s, _, dispatchTask_coro_fail hheap hc hsup hico
        (show scheduleCoro run s tid sched = .error .notConfigured by
          simp [scheduleCoro, hl]), rfl, rfl, fun j _ => rfl,
        sched, hheap, hc, rfl⟩
  · refine ⟨_, _, dispatchTask_sync hheap hc hsup (by simpa using hico) hpool,
      rfl, rfl, ?_, ?_⟩
    · intro j hj
      exact alookup_aset_ne hj _ _
    · exact ⟨_, alookup_aset_self .., hc, rfl⟩

/-- Unfolding equation for `scheduleOnce` in terms of `registerOnce`. -/
theorem scheduleOnce_eq (run : Run) (s : SchedulerState) (w : WorkItem)
    (a : List Nat) (ico : Bool) (ow : Option Nat) (ck : Option String)
    (dm : Option Int) (pr : Int) (now : Nat) :
    scheduleOnce run s w a ico ow ck dm pr now =
      (if truthyInt dm then
        .ok ({ registerOnce s w a ico ow ck dm pr now with
               debounce_timers :=
                 (registerOnce s w a ico ow ck dm pr now).debounce_timers
                   ++ [s.next_id] }, [], s.next_id)
      else
        match dispatchTask run (registerOnce s w a ico ow ck dm pr now)
            s.next_id with
        | .ok (s3, evs) => .ok (s3, evs, s.next_id)
        | .error e => .error e) := rfl

/-- C2: the registered holder of a coalesce key is unique at any instant, a
keyed `scheduleOnce` preserves the holder invariant (every holder is a live,
non-cancelled task registered under its own key), the new task always becomes
the holder, and the previous holder is marked cancelled if and only if its
execution handle (`last_future`) is still absent. -/
theorem coalesce_holder_exclusive (run : Run) (s : SchedulerState)
    (w : WorkItem) (a : List Nat) (ico : Bool) (ow : Option Nat) (k : String)
    (dm : Option Int) (pr : Int) (now : Nat)
    (hk : k ≠ "") (hpool : s.executor_shutdown = false)
    (hfresh : FreshInv s) (hinv : HolderInv s) :
    ∃ s' evs, scheduleOnce run s w a ico ow (some k) dm pr now
        = .ok (s', evs, s.next_id) ∧
      alookup k s'.coalesce_map = some s.next_id ∧
      (∀ k₂ i j, alookup k₂ s'.coalesce_map = some i →
        alookup k₂ s'.coalesce_map = some j → i = j) ∧
      HolderInv s' ∧
      (∀ pid prev, alookup k s.coalesce_map = some pid →
        alookup pid s.heap = some prev →
        (alookup pid s'.heap = some { prev with cancelled := true }
          ↔ prev.last_future = none)) := by
  rw [scheduleOnce_eq]
  have hT : (mkOnceTask s w a ico ow (some k) dm pr now).cancelled = false ∧
      (mkOnceTask s w a ico ow (some k) dm pr now).coalesce_key = some k ∧
      (mkOnceTask s w a ico ow (some k) dm pr now).id = s.next_id :=
    ⟨rfl, rfl, rfl⟩
  obtain ⟨hmap2, hlive2, hnew2, hother2, hiff2⟩ :=
    registerOnce_coalesce s w a ico ow k dm pr now hk hfresh hinv
  have hshut2 : (registerOnce s w a ico ow (some k) dm pr now).executor_shutdown
      = s.executor_shutdown := rfl
  revert hmap2 hlive2 hnew2 hother2 hiff2 hshut2
  generalize registerOnce s w a ico ow (some k) dm pr now = s2
  intro hmap2 hlive2 hnew2 hother2 hiff2 hshut2
  have hother2' : ∀ k₂ tid₂, k₂ ≠ k → alookup k₂ s.coalesce_map = some tid₂ →
      tid₂ ∈ s.live ∧ ∃ t, alookup tid₂ s2.heap = some t ∧
        t.cancelled = false ∧ t.coalesce_key = some k₂ ∧ k₂ ≠ "" := by
    intro k₂ tid₂ hk₂ hh
    obtain ⟨hl2, t, hrec, hnc, hkey, hne⟩ := hinv k₂ tid₂ hh
    refine ⟨hl2, t, ?_, hnc, hkey, hne⟩
    refine hother2 tid₂ t (Nat.ne_of_lt (hfresh _ (mem_of_alookup hrec))) ?_ hrec
    intro hcontra
    obtain ⟨-, t', hrec', -, hkey', -⟩ := hinv k tid₂ hcontra
    rw [hrec] at hrec'
    have ht : t = t' := by simpa using hrec'
    subst ht
    rw [hkey] at hkey'
    exact hk₂ (by simpa using hkey')
  have hpid_lt : ∀ pid, alookup k s.coalesce_map = some pid →
      pid < s.next_id := by
    intro pid hh
    obtain ⟨-, t, hrec, -, -, -⟩ := hinv k pid hh
    exact hfresh _ (mem_of_alookup hrec)
  by_cases hdm : truthyInt dm = true
  · rw [if_pos hdm]
    refine ⟨_, [], rfl, ?_, ?_, ?_, ?_⟩
    · show alookup k s2.coalesce_map = some s.next_id
      rw [hmap2]
      exact alookup_aset_self ..
    · intro k₂ i j h1 h2
      exact Option.some.inj (h1.symm.trans h2)
    · intro k₂ tid₂ hh
      have hh' : alookup k₂ s2.coalesce_map = some tid₂ := hh
      rw [hmap2] at hh'
      by_cases hk₂ : k₂ = k
      · subst hk₂
        rw [alookup_aset_self] at hh'
        have htid₂ : tid₂ = s.next_id := by simpa using hh'.symm
        subst htid₂
        refine ⟨?_, _, hnew2, hT.1, hT.2.1, hk⟩
        show s.next_id ∈ s2.live
        rw [hlive2]
        exact List.mem_append_right _ (by simp)
      · rw [alookup_aset_ne hk₂] at hh'
        obtain ⟨hl2, t, hrec, hnc, hkey, hne⟩ := hother2' k₂ tid₂ hk₂ hh'
        refine ⟨?_, t, hrec, hnc, hkey, hne⟩
        show tid₂ ∈ s2.live
        rw [hlive2]
        exact List.mem_append_left _ hl2
    · intro pid prev hpid hrec
      exact hiff2 pid prev hpid hrec
  · rw [if_neg hdm]
    obtain ⟨s3, evs, hd, hmap3, hlive3, hother3, t', hat', hnc', hkey'⟩ :=
      dispatchTask_ready_frame run s2 s.next_id
        (mkOnceTask s w a ico ow (some k) dm pr now) hnew2 hT.1
        (by
          simp only [supersededB, mkOnceTask]
          rw [if_neg (show ¬((k == "") = true) by simpa using hk)]
          rw [hmap2, alookup_aset_self]
          simp)
        (hshut2.trans hpool)
    rw [hd]
    refine ⟨s3, evs, rfl, ?_, ?_, ?_, ?_⟩
    · rw [hmap3, hmap2]
      exact alookup_aset_self ..
    · intro k₂ i j h1 h2
      exact Option.some.inj (h1.symm.trans h2)
    · intro k₂ tid₂ hh
      rw [hmap3, hmap2] at hh
      by_cases hk₂ : k₂ = k
      · subst hk₂
        rw [alookup_aset_self] at hh
        have htid₂ : tid₂ = s.next_id := by simpa using hh.symm
        subst htid₂
        refine ⟨?_, t', hat', hnc', ?_, hk⟩
        · rw [hlive3, hlive2]
          exact List.mem_append_right _ (by simp)
        · rw [hkey']
          exact hT.2.1
      · rw [alookup_aset_ne hk₂] at hh
        obtain ⟨hl2, t, hrec, hnc, hkey, hne⟩ := hother2' k₂ tid₂ hk₂ hh
        refine ⟨?_, t, ?_, hnc, hkey, hne⟩
        · rw [hlive3, hlive2]
          exact List.mem_append_left _ hl2
        · rw [hother3 tid₂ (by
            intro hcontra
            obtain ⟨-, tx, hrx, -, -, -⟩ := hinv k₂ tid₂ hh
            rw [hcontra] at hrx
            exact absurd (hfresh _ (mem_of_alookup hrx)) (lt_irrefl _))]
          exact hrec
    · intro pid prev hpid hrec
      have hlt := hpid_lt pid hpid
      rw [hother3 pid (Nat.ne_of_lt hlt)]
      exact hiff2 pid prev hpid hrec

/-- Witness for C2: superseding the concrete holder of key "k" keeps the map
functional, preserves the holder invariant, installs the new task 1 as holder,
and marks task 0 cancelled (its execution handle was absent). -/
theorem coalesce_holder_exclusive_witness :
    ∃ s' evs, scheduleOnce runW heldState ⟨4, none⟩ [] false (some 2) (some "k")
        (some 200) 0 0 = .ok (s', evs, heldState.next_id) ∧
      alookup "k" s'.coalesce_map = some heldState.next_id ∧
      (∀ k₂ i j, alookup k₂ s'.coalesce_map = some i →
        alookup k₂ s'.coalesce_map = some j → i = j) ∧
      HolderInv s' ∧
      (∀ pid prev, alookup "k" heldState.coalesce_map = some pid →
        alookup pid heldState.heap = some prev →
        (alookup pid s'.heap = some { prev with cancelled := true }
          ↔ prev.last_future = none)) :=
  coalesce_holder_exclusive runW heldState ⟨4, none⟩ [] false (some 2) "k"
    (some 200) 0 0 (by decide) rfl (by simp [FreshInv, heldState])
    (by
      intro k2 tid h
      by_cases hk2 : ("k" : String) = k2
      · subst hk2
        have ht : tid = 0 := by
          simpa [heldState, alookup] using h.symm
        subst ht
        exact ⟨by decide, heldTask, rfl, rfl, rfl, by decide⟩
      · exact absurd h (by simp [heldState, alookup, hk2]))

/-- One schedule request: work item, bound arguments, owner token. -/
abbrev Payload := WorkItem × List Nat × Option Nat

/-- Issue a sequence of sync `scheduleOnce` calls sharing one coalesce key and
one debounce interval, before any of them fires. -/
def scheduleSeq (run : Run) (s : SchedulerState) (k : String) (d : Int) :
    List Payload → Except Exc (SchedulerState × List TaskId)
  | [] => .ok (s, [])
  | (w, a, ow) :: rest =>
    match scheduleOnce run s w a false ow (some k) (some d) 0 0 with
    | .ok (s', _, tid) =>
      match scheduleSeq run s' k d rest with
      | .ok (s'', tids) => .ok (s'', tid :: tids)
      | .error e => .error e
    | .error e => .error e

/-- Fire the pending debounce timers of the given tasks, in order, collecting
every completion event produced. -/
def fireSeq (run : Run) (s : SchedulerState) :
    List TaskId → Except Exc (SchedulerState × List CompletionEvent)
  | [] => .ok (s, [])
  | tid :: rest =>
    match debounceFire run s tid with
    | .ok (s', evs) =>
      match fireSeq run s' rest with
      | .ok (s'', evs') => .ok (s'', evs ++ evs')
      | .error e => .error e
    | .error e => .error e

/-- A debounced `scheduleOnce` only registers and arms the timer. -/
theorem scheduleOnce_debounce (run : Run) (s : SchedulerState) (w : WorkItem)
    (a : List Nat) (ico : Bool) (ow : Option Nat) (ck : Option String)
    (d : Int) (pr : Int) (now : Nat) (hd : d ≠ 0) :
    scheduleOnce run s w a ico ow ck (some d) pr now =
      .ok ({ registerOnce s w a ico ow ck (some d) pr now with
             debounce_timers :=
               (registerOnce s w a ico ow ck (some d) pr now).debounce_timers
                 ++ [s.next_id] }, [], s.next_id) := by
  rw [scheduleOnce_eq, if_pos (by simp [truthyInt, hd])]

theorem scheduleSync_timers (run : Run) (s : SchedulerState)
    (dt : List TaskId) (tid : TaskId) (sched : ScheduledTask) :
    scheduleSync run { s with debounce_timers := dt } tid sched =
      match scheduleSync run s tid sched with
      | .ok (s', evs) => .ok ({ s' with debounce_timers := dt }, evs)
      | .error e => .error e := by
  unfold scheduleSync
  by_cases hp : s.executor_shutdown = true <;> simp [hp]

theorem scheduleCoro_timers (run : Run) (s : SchedulerState)
    (dt : List TaskId) (tid : TaskId) (sched : ScheduledTask) :
    scheduleCoro run { s with debounce_timers := dt } tid sched =
      match scheduleCoro run s tid sched with
      | .ok (s', evs) => .ok ({ s' with debounce_timers := dt }, evs)
      | .error e => .error e := by
  unfold scheduleCoro
  by_cases hl : s.has_loop = true
  · by_cases hls : s.loop_started = true <;> simp [hl, hls]
  · simp [hl]

/-- `_dispatch` neither reads nor writes the debounce-timer set. -/
theorem dispatchTask_timers (run : Run) (s : SchedulerState)
    (dt : List TaskId) (tid : TaskId) :
    dispatchTask run { s with debounce_timers := dt } tid =
      match dispatchTask run s tid with
      | .ok (s', evs) => .ok ({ s' with debounce_timers := dt }, evs)
      | .error e => .error e := by
  unfold dispatchTask
  have hsupeq : ∀ sched, supersededB { s with debounce_timers := dt } sched
      = supersededB s sched := fun _ => rfl
  cases hl : alookup tid s.heap with
  | none => simp
  | some sched =>
    simp only []
    by_cases hc : sched.cancelled = true
    · simp [hc]
    · simp only [hc, Bool.false_eq_true, if_false]
      by_cases hsup : supersededB s sched = true
      · simp [hsupeq, hsup]
      · simp only [hsupeq, hsup, Bool.false_eq_true, if_false]
        by_cases hico : sched.is_coroutine = true
        · simp only [hico, if_true]
          rw [scheduleCoro_timers]
          cases scheduleCoro run s tid sched with
          | ok r => rfl
          | error e => rfl
        · simp only [hico, Bool.false_eq_true, if_false]
          rw [scheduleSync_timers]

/-- Unfolding of a debounce fire on a state with replaced timer set. -/
theorem debounceFire_timers (run : Run) (s : SchedulerState)
    (dt : List TaskId) (tid : TaskId) :
    debounceFire run { s with debounce_timers := dt } tid =
      match dispatchTask run s tid with
      | .ok (s', evs) =>
        .ok ({ s' with debounce_timers := dt.filter (· ≠ tid) }, evs)
      | .error e => .error e := by
  have h : debounceFire run { s with debounce_timers := dt } tid
      = dispatchTask run { s with debounce_timers := dt.filter (· ≠ tid) } tid :=
    rfl
  rw [h, dispatchTask_timers]

/-- Unfolding of a debounce fire in terms of `_dispatch`. -/
theorem debounceFire_eq (run : Run) (s : SchedulerState) (tid : TaskId) :
    debounceFire run s tid =
      match dispatchTask run s tid with
      | .ok (s', evs) =>
        .ok ({ s' with debounce_timers :=
                 s.debounce_timers.filter (· ≠ tid) }, evs)
      | .error e => .error e := by
  have h : debounceFire run s tid
      = dispatchTask run
          { s with debounce_timers := s.debounce_timers.filter (· ≠ tid) } tid :=
    rfl
  rw [h, dispatchTask_timers]

/-- Firing a list of timers is independent of the pending-timer bookkeeping:
only the final timer set differs. -/
theorem fireSeq_timers (run : Run) (tids : List TaskId) :
    ∀ (s : SchedulerState) (dt : List TaskId),
    fireSeq run { s with debounce_timers := dt } tids =
      match fireSeq run s tids with
      | .ok (s', evs) =>
        .ok ({ s' with debounce_timers :=
                 tids.foldl (fun l t => l.filter (· ≠ t)) dt }, evs)
      | .error e => .error e := by
  induction tids with
  | nil => intro s dt; rfl
  | cons t ts ih =>
    intro s dt
    have hL : fireSeq run { s with debounce_timers := dt } (t :: ts)
        = (match debounceFire run { s with debounce_timers := dt } t with
          | .ok (s', evs) =>
            match fireSeq run s' ts with
            | .ok (s'', evs') => .ok (s'', evs ++ evs')
            | .error e => .error e
          | .error e => .error e) := rfl
    have hR : fireSeq run s (t :: ts)
        = (match debounceFire run s t with
          | .ok (s', evs) =>
            match fireSeq run s' ts with
            | .ok (s'', evs') => .ok (s'', evs ++ evs')
            | .error e => .error e
          | .error e => .error e) := rfl
    rw [hL, hR, debounceFire_timers, debounceFire_eq]
    cases hdt : dispatchTask run s t with
    | error e => rfl
    | ok r =>
      obtain ⟨s1, evs1⟩ := r
      simp only []
      rw [ih s1 (dt.filter (· ≠ t)), ih s1 (s.debounce_timers.filter (· ≠ t))]
      cases hfs : fireSeq run s1 ts with
      | error e => rfl
      | ok r2 =>
        obtain ⟨s2, evs2⟩ := r2
        rfl

/-- Every heap entry after the coalesce bookkeeping keys an entry that was
already present. -/
theorem coalesceStep_heap_key {s1 : SchedulerState} {task_id : TaskId}
    {ck : Option String} {p : TaskId × ScheduledTask}
    (hp : p ∈ (coalesceStep s1 task_id ck).1) :
    ∃ q ∈ s1.heap, p.1 = q.1 := by
  cases ck with
  | none => exact ⟨p, hp, rfl⟩
  | some k =>
    simp only [coalesceStep] at hp
    by_cases hk : (k == "") = true
    · rw [if_pos hk] at hp
      exact ⟨p, hp, rfl⟩
    · rw [if_neg hk] at hp
      cases hl : alookup k s1.coalesce_map with
      | none =>
        simp only [hl] at hp
        exact ⟨p, hp, rfl⟩
      | some pid =>
        simp only [hl] at hp
        cases ht : tasksGet s1 pid with
        | none =>
          simp only [ht] at hp
          exact ⟨p, hp, rfl⟩
        | some prev =>
          simp only [ht] at hp
          by_cases hc : (!prev.cancelled && prev.last_future == none) = true
          · simp only [hc, if_true] at hp
            rcases mem_aset hp with h1 | h1
            · exact ⟨(pid, prev),
                mem_of_alookup (alookup_of_tasksGet ht), by rw [h1]⟩
            · exact ⟨p, h1, rfl⟩
          · simp only [hc, Bool.false_eq_true, if_false] at hp
            exact ⟨p, hp, rfl⟩

/-- Every coalesce-map entry after the bookkeeping is the fresh task or was
already present. -/
theorem coalesceStep_map_mem {s1 : SchedulerState} {task_id : TaskId}
    {ck : Option String} {p : String × TaskId}
    (hp : p ∈ (coalesceStep s1 task_id ck).2) :
    p.2 = task_id ∨ p ∈ s1.coalesce_map := by
  cases ck with
  | none => exact Or.inr hp
  | some k =>
    simp only [coalesceStep] at hp
    by_cases hk : (k == "") = true
    · rw [if_pos hk] at hp
      exact Or.inr hp
    · rw [if_neg hk] at hp
      simp only [] at hp
      rcases mem_aset hp with h1 | h1
      · exact Or.inl (by rw [h1])
      · exact Or.inr h1

theorem registerOnce_fresh (s : SchedulerState) (w : WorkItem) (a : List Nat)
    (ico : Bool) (ow : Option Nat) (ck : Option String) (dm : Option Int)
    (pr : Int) (now : Nat) (hfresh : FreshInv s) :
    FreshInv (registerOnce s w a ico ow ck dm pr now) := by
  intro p hp
  obtain ⟨q, hq, hpq⟩ := coalesceStep_heap_key
    (show p ∈ (coalesceStep
      (regInsert s (mkOnceTask s w a ico ow ck dm pr now)) s.next_id ck).1
      from hp)
  have hq' : q ∈ s.heap ++ [(s.next_id, mkOnceTask s w a ico ow ck dm pr now)]
    := hq
  show p.1 < s.next_id + 1
  rw [hpq]
  rcases List.mem_append.mp hq' with h1 | h1
  · exact Nat.lt_succ_of_lt (hfresh q h1)
  · rw [List.mem_singleton.mp h1]
    exact Nat.lt_succ_self _

theorem registerOnce_mapBelow (s : SchedulerState) (w : WorkItem)
    (a : List Nat) (ico : Bool) (ow : Option Nat) (ck : Option String)
    (dm : Option Int) (pr : Int) (now : Nat) (hmap : MapBelow s) :
    MapBelow (registerOnce s w a ico ow ck dm pr now) := by
  intro p hp
  show p.2 < s.next_id + 1
  rcases coalesceStep_map_mem (show p ∈ (coalesceStep
      (regInsert s (mkOnceTask s w a ico ow ck dm pr now)) s.next_id ck).2
      from hp) with h1 | h1
  · rw [h1]
    exact Nat.lt_succ_self _
  · exact Nat.lt_succ_of_lt (hmap p h1)

/-- Full effect of one keyed, debounced, sync `scheduleOnce` call when the key
is either free or held by a known live, pending (no handle), non-cancelled
task: the call only registers, arms the timer, takes over the key, marks such
a previous holder cancelled, and leaves already-cancelled records untouched. -/
theorem scheduleOnce_keyed_spec (run : Run) (s : SchedulerState) (w : WorkItem)
    (a : List Nat) (ow : Option Nat) (k : String) (d : Int)
    (hk : k ≠ "") (hd : d ≠ 0) (hfresh : FreshInv s) (hmap : MapBelow s)
    (hhold : alookup k s.coalesce_map = none ∨
      ∃ t : ScheduledTask, alookup k s.coalesce_map = some t.id ∧
        t.id ∈ s.live ∧ alookup t.id s.heap = some t ∧ t.cancelled = false ∧
        t.last_future = none ∧ t.coalesce_key = some k) :
    ∃ s1, scheduleOnce run s w a false ow (some k) (some d) 0 0
        = .ok (s1, [], s.next_id) ∧
      s1.next_id = s.next_id + 1 ∧
      s1.executor_shutdown = s.executor_shutdown ∧
      FreshInv s1 ∧ MapBelow s1 ∧
      alookup k s1.coalesce_map = some s.next_id ∧
      s.next_id ∈ s1.live ∧
      alookup s.next_id s1.heap
        = some (mkOnceTask s w a false ow (some k) (some d) 0 0) ∧
      (∀ pid prev, alookup k s.coalesce_map = some pid →
        alookup pid s.heap = some prev → prev.cancelled = false →
        prev.last_future = none →
        alookup pid s1.heap = some { prev with cancelled := true }) ∧
      (∀ j t, alookup j s.heap = some t → t.cancelled = true →
        alookup j s1.heap = some t) := by
  have hfreshlook : alookup s.next_id
      (s.heap ++ [(s.next_id, mkOnceTask s w a false ow (some k) (some d) 0 0)])
      = some (mkOnceTask s w a false ow (some k) (some d) 0 0) := by
    rw [alookup_append_of_none (alookup_fresh_none hfresh)]
    simp [alookup]
  rcases hhold with h | ⟨t, hmapk, hlivet, hrect, hnct, hnft, hkeyt⟩
  · have hstep := coalesceStep_nohold
      (regInsert s (mkOnceTask s w a false ow (some k) (some d) 0 0))
      s.next_id hk h
    refine ⟨_, scheduleOnce_debounce run s w a false ow (some k) d 0 0 hd,
      rfl, rfl,
      registerOnce_fresh s w a false ow (some k) (some d) 0 0 hfresh,
      registerOnce_mapBelow s w a false ow (some k) (some d) 0 0 hmap,
      ?_, ?_, ?_, ?_, ?_⟩
    · show alookup k (coalesceStep (regInsert s (mkOnceTask s w a false ow
        (some k) (some d) 0 0)) s.next_id (some k)).2 = some s.next_id
      rw [hstep]
      exact alookup_aset_self ..
    · show s.next_id ∈ s.live ++ [s.next_id]
      exact List.mem_append_right _ (by simp)
    · show alookup s.next_id (coalesceStep (regInsert s (mkOnceTask s w a
        false ow (some k) (some d) 0 0)) s.next_id (some k)).1 = _
      rw [hstep]
      exact hfreshlook
    · intro pid prev hpid
      rw [h] at hpid
      exact absurd hpid (by simp)
    · intro j tj hj hjc
      show alookup j (coalesceStep (regInsert s (mkOnceTask s w a false ow
        (some k) (some d) 0 0)) s.next_id (some k)).1 = some tj
      rw [hstep]
      exact alookup_append_of_some hj
  · have htg : tasksGet
        (regInsert s (mkOnceTask s w a false ow (some k) (some d) 0 0)) t.id
        = some t := by
      simp [tasksGet, regInsert, hlivet, alookup_append_of_some hrect]
    have hstep := coalesceStep_supersede
      (regInsert s (mkOnceTask s w a false ow (some k) (some d) 0 0))
      s.next_id hk hmapk htg hnct hnft
    have htid : t.id ≠ s.next_id :=
      Nat.ne_of_lt (hfresh _ (mem_of_alookup hrect))
    refine ⟨_, scheduleOnce_debounce run s w a false ow (some k) d 0 0 hd,
      rfl, rfl,
      registerOnce_fresh s w a false ow (some k) (some d) 0 0 hfresh,
      registerOnce_mapBelow s w a false ow (some k) (some d) 0 0 hmap,
      ?_, ?_, ?_, ?_, ?_⟩
    · show alookup k (coalesceStep (regInsert s (mkOnceTask s w a false ow
        (some k) (some d) 0 0)) s.next_id (some k)).2 = some s.next_id
      rw [hstep]
      exact alookup_aset_self ..
    · show s.next_id ∈ s.live ++ [s.next_id]
      exact List.mem_append_right _ (by simp)
    · show alookup s.next_id (coalesceStep (regInsert s (mkOnceTask s w a
        false ow (some k) (some d) 0 0)) s.next_id (some k)).1 = _
      rw [hstep]
      dsimp only
      rw [alookup_aset_ne (Ne.symm htid)]
      exact hfreshlook
    · intro pid prev hpid hprev hpnc hpnf
      have hpe : pid = t.id := by simpa using (hmapk.symm.trans hpid).symm
      have hpr : prev = t := by
        rw [hpe] at hprev
        simpa using (hrect.symm.trans hprev).symm
      rw [hpe, hpr]
      show alookup t.id (coalesceStep (regInsert s (mkOnceTask s w a false ow
        (some k) (some d) 0 0)) s.next_id (some k)).1 = _
      rw [hstep]
      exact alookup_aset_self ..
    · intro j tj hj hjc
      have hjt : j ≠ t.id := by
        intro hh
        subst hh
        have : tj = t := by simpa using hj.symm.trans hrect
        subst this
        rw [hjc] at hnct
        exact absurd hnct (by simp)
      show alookup j (coalesceStep (regInsert s (mkOnceTask s w a false ow
        (some k) (some d) 0 0)) s.next_id (some k)).1 = some tj
      rw [hstep]
      dsimp only
      rw [alookup_aset_ne hjt]
      exact alookup_append_of_some hj

/-- Unfolding equation for `scheduleSeq` on a cons. -/
theorem scheduleSeq_cons (run : Run) (s : SchedulerState) (k : String)
    (d : Int) (w : WorkItem) (a : List Nat) (ow : Option Nat)
    (rest : List Payload) :
    scheduleSeq run s k d ((w, a, ow) :: rest) =
      (match scheduleOnce run s w a false ow (some k) (some d) 0 0 with
      | .ok (s', _, tid) =>
        match scheduleSeq run s' k d rest with
        | .ok (s'', tids) => .ok (s'', tid :: tids)
        | .error e => .error e
      | .error e => .error e) := rfl

/-- Unfolding equation for `fireSeq` on a cons. -/
theorem fireSeq_cons (run : Run) (s : SchedulerState) (tid : TaskId)
    (rest : List TaskId) :
    fireSeq run s (tid :: rest) =
      (match debounceFire run s tid with
      | .ok (s', evs) =>
        match fireSeq run s' rest with
        | .ok (s'', evs') => .ok (s'', evs ++ evs')
        | .error e => .error e
      | .error e => .error e) := rfl

/-- C4: for any sequence of `scheduleOnce` calls sharing one coalesce key and
debounce interval, all issued before any of them is dispatched, firing every
pending debounce timer afterwards produces exactly one completion event in
total: it belongs to the last call of the sequence and carries that call's
work item, arguments and owner; every earlier call yields no event. (The last
two conjuncts are the frame facts the induction maintains: the previous
holder at entry ends up marked cancelled, and records already cancelled at
entry survive unchanged.) -/
theorem debounce_coalesce_last_wins (run : Run) (k : String) (d : Int)
    (hk : k ≠ "") (hd : d ≠ 0) :
    ∀ (ps : List Payload) (w : WorkItem) (a : List Nat) (ow : Option Nat)
      (s : SchedulerState),
      s.executor_shutdown = false → FreshInv s → MapBelow s →
      (alookup k s.coalesce_map = none ∨
        ∃ t : ScheduledTask, alookup k s.coalesce_map = some t.id ∧
          t.id ∈ s.live ∧ alookup t.id s.heap = some t ∧ t.cancelled = false ∧
          t.last_future = none ∧ t.coalesce_key = some k) →
      ∃ sf tids sg,
        scheduleSeq run s k d ((w, a, ow) :: ps) = .ok (sf, tids) ∧
        fireSeq run sf tids = .ok (sg,
          [mkDoneEvent (s.next_id + ps.length) (ps.getLastD (w, a, ow)).2.2
            (run (ps.getLastD (w, a, ow)).1 (ps.getLastD (w, a, ow)).2.1)]) ∧
        (∀ pid prev, alookup k s.coalesce_map = some pid →
          alookup pid s.heap = some prev → prev.cancelled = false →
          prev.last_future = none →
          alookup pid sf.heap = some { prev with cancelled := true }) ∧
        (∀ j t, alookup j s.heap = some t → t.cancelled = true →
          alookup j sf.heap = some t) := by
  intro ps
  induction ps with
  | nil =>
    intro w a ow s hpool hfresh hmap hhold
    obtain ⟨s1, hc1, hc2, hc3, hc4, hc5, hc6, hc7, hc8, hc9, hc10⟩ :=
      scheduleOnce_keyed_spec run s w a ow k d hk hd hfresh hmap hhold
    have hsup2 : supersededB s1
        (mkOnceTask s w a false ow (some k) (some d) 0 0) = false := by
      simp only [supersededB, mkOnceTask]
      rw [if_neg (show ¬((k == "") = true) by simpa using hk)]
      rw [hc6]
      simp
    have hdisp := @dispatchTask_sync run s1 s.next_id _ hc8 rfl hsup2 rfl
      (hc3.trans hpool)
    refine ⟨s1, [s.next_id],
      { s1 with
        heap := aset s.next_id
          { mkOnceTask s w a false ow (some k) (some d) 0 0 with
            last_future := some s1.next_handle } s1.heap,
        next_handle := s1.next_handle + 1,
        debounce_timers := s1.debounce_timers.filter (· ≠ s.next_id) },
      ?_, ?_, hc9, hc10⟩
    · rw [scheduleSeq_cons, hc1]
      rfl
    · rw [fireSeq_cons, debounceFire_eq, hdisp]
      rfl
  | cons q ps' ih =>
    intro w a ow s hpool hfresh hmap hhold
    obtain ⟨w₂, a₂, ow₂⟩ := q
    obtain ⟨s1, hc1, hc2, hc3, hc4, hc5, hc6, hc7, hc8, hc9, hc10⟩ :=
      scheduleOnce_keyed_spec run s w a ow k d hk hd hfresh hmap hhold
    have hhold1 : alookup k s1.coalesce_map = none ∨
        ∃ t : ScheduledTask, alookup k s1.coalesce_map = some t.id ∧
          t.id ∈ s1.live ∧ alookup t.id s1.heap = some t ∧
          t.cancelled = false ∧ t.last_future = none ∧
          t.coalesce_key = some k :=
      Or.inr ⟨mkOnceTask s w a false ow (some k) (some d) 0 0,
        hc6, hc7, hc8, rfl, rfl, rfl⟩
    obtain ⟨sf, tids', sg, hseq', hfire', hmark', hpres'⟩ :=
      ih w₂ a₂ ow₂ s1 (hc3.trans hpool) hc4 hc5 hhold1
    have hmarked : alookup s.next_id sf.heap = some
        { mkOnceTask s w a false ow (some k) (some d) 0 0 with
          cancelled := true } :=
      hmark' s.next_id (mkOnceTask s w a false ow (some k) (some d) 0 0)
        hc6 hc8 rfl rfl
    have hdisp0 : dispatchTask run sf s.next_id = .ok (sf, []) :=
      dispatchTask_cancelled hmarked rfl
    rw [hc2] at hfire'
    refine ⟨sf, s.next_id :: tids',
      { sg with debounce_timers :=
          (tids'.foldl (fun l t => l.filter (· ≠ t))
            (sf.debounce_timers.filter (· ≠ s.next_id))) },
      ?_, ?_, ?_, ?_⟩
    · rw [scheduleSeq_cons, hc1]
      show (match scheduleSeq run s1 k d ((w₂, a₂, ow₂) :: ps') with
        | .ok (s'', tids) => .ok (s'', s.next_id :: tids)
        | .error e => .error e
        : Except Exc (SchedulerState × List TaskId)) = _
      rw [hseq']
    · rw [fireSeq_cons, debounceFire_eq, hdisp0]
      show (match fireSeq run
          { sf with debounce_timers :=
              sf.debounce_timers.filter (· ≠ s.next_id) } tids' with
        | .ok (s'', evs') => .ok (s'', [] ++ evs')
        | .error e => .error e
        : Except Exc (SchedulerState × List CompletionEvent)) = _
      rw [fireSeq_timers run tids' sf (sf.debounce_timers.filter (· ≠ s.next_id)),
        hfire']
      have hlen : s.next_id + ((w₂, a₂, ow₂) :: ps').length
          = s.next_id + 1 + ps'.length := by
        simp only [List.length_cons]
        rw [← Nat.add_assoc]
        exact Nat.add_right_comm s.next_id ps'.length 1
      rw [hlen, List.getLastD_cons]
      rfl
    · intro pid prev hpid hprev hnc hnf
      exact hpres' pid { prev with cancelled := true }
        (hc9 pid prev hpid hprev hnc hnf) rfl
    · intro j t hj hjc
      exact hpres' j t (hc10 j t hj hjc) hjc

/-- Payloads used by the C4 witness. -/
def wPayloadA : Payload := (⟨2, none⟩, [1], some 5)

/-- Second payload of the C4 witness. -/
def wPayloadB : Payload := (⟨4, none⟩, [2], some 6)

/-- Third payload of the C4 witness. -/
def wPayloadC : Payload := (⟨6, none⟩, [3], some 7)

/-- Witness for C4: three debounced calls on key "k" from a fresh scheduler
produce, once all three timers fire, exactly the completion event of the third
call. -/
theorem debounce_coalesce_last_wins_witness :
    ∃ sf tids sg,
      scheduleSeq runW (initState true) "k" 200
          (wPayloadA :: [wPayloadB, wPayloadC]) = .ok (sf, tids) ∧
      fireSeq runW sf tids = .ok (sg,
        [mkDoneEvent ((initState true).next_id + [wPayloadB, wPayloadC].length)
          ([wPayloadB, wPayloadC].getLastD wPayloadA).2.2
          (runW ([wPayloadB, wPayloadC].getLastD wPayloadA).1
            ([wPayloadB, wPayloadC].getLastD wPayloadA).2.1)]) ∧
      (∀ pid prev, alookup "k" (initState true).coalesce_map = some pid →
        alookup pid (initState true).heap = some prev →
        prev.cancelled = false → prev.last_future = none →
        alookup pid sf.heap = some { prev with cancelled := true }) ∧
      (∀ j t, alookup j (initState true).heap = some t → t.cancelled = true →
        alookup j sf.heap = some t) :=
  debounce_coalesce_last_wins runW "k" 200 (by decide) (by decide)
    [wPayloadB, wPayloadC] wPayloadA.1 wPayloadA.2.1 wPayloadA.2.2
    (initState true) rfl (by simp [FreshInv, initState])
    (by simp [MapBelow, initState]) (Or.inl rfl)

end DynamicTasks
